import Mathlib

/-!
# Verification development for multicluster-cloud-provider

Shallow embedding of

* `pkg/controllers/crdsynchronizer/crd_synchronizer.go` (the CRD synchronizer that keeps
  the ClusterPropagationPolicy `serviceexport-policy` in line with the registered clusters),
* `pkg/controllers/indexes/reference_indexer.go` (the service reference index of a
  MultiClusterIngress).

The resource store behind `client.Client` is an explicit value of type `Store`; every
function that talks to the store takes the store and returns the store it leaves behind,
the list of client calls it issued and its outcome.  A nil pointer dereference is an
outcome of its own.
-/

set_option autoImplicit false

namespace crdsynchronizer

/-! ## API objects (the fields the controller reads or writes) -/

/-- Object metadata: `metav1.ObjectMeta` with its name and deletion timestamp.  The
timestamp is a pointer in Go (`*metav1.Time`); a time is its offset from the zero time. -/
structure ObjectMeta where
  Name : String := ""
  DeletionTimestamp : Option Nat := none
deriving DecidableEq, Repr

/-- Method `(*metav1.Time).IsZero`: a nil pointer and the zero time are both zero. -/
def IsZero : Option Nat → Bool
  | none => true
  | some t => t == 0

/-- A member cluster, `clusterv1alpha1.Cluster`; the zero value has the empty name. -/
structure Cluster extends ObjectMeta
deriving DecidableEq, Repr

/-- One entry of `Spec.ResourceSelectors`. -/
structure ResourceSelector where
  APIVersion : String := ""
  Kind : String := ""
  Name : String := ""
deriving DecidableEq, Repr

/-- Type `policyv1alpha1.ClusterAffinity`, with its list of cluster names. -/
structure ClusterAffinity where
  ClusterNames : List String := []
deriving DecidableEq, Repr

/-- Type `policyv1alpha1.Placement`; `ClusterAffinity` is a pointer and may be nil. -/
structure Placement where
  ClusterAffinity : Option ClusterAffinity := none
deriving DecidableEq, Repr

/-- Type `policyv1alpha1.PropagationSpec`. -/
structure PropagationSpec where
  ResourceSelectors : List ResourceSelector := []
  Placement : Placement := {}
deriving DecidableEq, Repr

/-- Type `policyv1alpha1.ClusterPropagationPolicy`. -/
structure ClusterPropagationPolicy extends ObjectMeta where
  Spec : PropagationSpec := {}
deriving DecidableEq, Repr

/-! ## Constants of the package -/

def ControllerName : String := "crd-synchronizer"

def clusterPropagationPolicyName : String := "serviceexport-policy"

/-- The two intents of a reconcile: `ensure` and `remove` (`eventType`). -/
inductive eventType where
  | ensure
  | remove
deriving DecidableEq, Repr

/-! ## The resource store and the client -/

/-- Errors a client call can return (`apierrors`). -/
inductive StatusError where
  | NotFound
  | AlreadyExists
  | Conflict
  | Other (code : Nat)
deriving DecidableEq, Repr

/-- Predicate `apierrors.IsNotFound`. -/
def IsNotFound : StatusError → Bool
  | .NotFound => true
  | _ => false

/-- The resource store: the Cluster objects in the order `List` returns them and the
ClusterPropagationPolicy objects, each stored under its name. -/
structure Store where
  clusters : List Cluster := []
  policies : List ClusterPropagationPolicy := []
deriving DecidableEq, Repr

/-- The client operations the controller uses. -/
inductive Op where
  | GetCluster
  | GetPolicy
  | ListClusters
  | CreatePolicy
  | UpdatePolicy
deriving DecidableEq, Repr

/-- Failures of the store that do not come from its content (conflicts, timeouts, ...):
for each operation the error the store answers with, if any. -/
abbrev Faults := Op → Option StatusError

/-- A store all of whose calls go through. -/
def noFaults : Faults := fun _ => none

/-- A client call as issued by the controller, with the object written for a write. -/
inductive Call where
  | GetCluster (name : String)
  | GetPolicy (name : String)
  | ListClusters
  | Create (policy : ClusterPropagationPolicy)
  | Update (policy : ClusterPropagationPolicy)
deriving DecidableEq, Repr

/-- Whether a call writes to the store. -/
def Call.isWrite : Call → Bool
  | .Create _ => true
  | .Update _ => true
  | _ => false

/-- The Cluster stored under `name`, if any. -/
def Store.getCluster (s : Store) (name : String) : Option Cluster :=
  s.clusters.find? (fun c => c.Name == name)

/-- The ClusterPropagationPolicy stored under `name`, if any. -/
def Store.getPolicy (s : Store) (name : String) : Option ClusterPropagationPolicy :=
  s.policies.find? (fun p => p.Name == name)

/-- Call `Client.Get` for a Cluster. -/
def Client.GetCluster (f : Faults) (s : Store) (name : String) : Except StatusError Cluster :=
  match f .GetCluster with
  | some e => .error e
  | none =>
    match s.getCluster name with
    | some c => .ok c
    | none => .error .NotFound

/-- Call `Client.Get` for a ClusterPropagationPolicy. -/
def Client.GetPolicy (f : Faults) (s : Store) (name : String) :
    Except StatusError ClusterPropagationPolicy :=
  match f .GetPolicy with
  | some e => .error e
  | none =>
    match s.getPolicy name with
    | some p => .ok p
    | none => .error .NotFound

/-- Call `Client.List` for Clusters: every Cluster in the store. -/
def Client.List (f : Faults) (s : Store) : Except StatusError (List Cluster) :=
  match f .ListClusters with
  | some e => .error e
  | none => .ok s.clusters

/-- Call `Client.Create`: stores the object unless its name is taken. -/
def Client.Create (f : Faults) (s : Store) (p : ClusterPropagationPolicy) :
    Except StatusError Store :=
  match f .CreatePolicy with
  | some e => .error e
  | none =>
    if s.policies.any (fun q => q.Name == p.Name) then .error .AlreadyExists
    else .ok { s with policies := s.policies ++ [p] }

/-- Call `Client.Update`: replaces the object stored under the name of `p`. -/
def Client.Update (f : Faults) (s : Store) (p : ClusterPropagationPolicy) :
    Except StatusError Store :=
  match f .UpdatePolicy with
  | some e => .error e
  | none =>
    if s.policies.any (fun q => q.Name == p.Name) then
      .ok { s with policies := s.policies.map (fun q => if q.Name == p.Name then p else q) }
    else .error .NotFound

/-! ## The controller -/

/-- How a reconcile ends: `(Result{}, nil)`, `(Result{}, err)`, or a nil pointer
dereference. -/
inductive Outcome where
  | success
  | failure (err : StatusError)
  | nilDereference
deriving DecidableEq, Repr

/-- What a reconcile leaves behind: the store, the client calls in the order issued, and
the outcome. -/
structure Run where
  store : Store
  calls : List Call
  outcome : Outcome
deriving DecidableEq, Repr

/-- Function `clusterPropagationPolicy`: the policy with the fixed resource selector and
the given cluster names. -/
def clusterPropagationPolicy (clusters : List String) : ClusterPropagationPolicy :=
  { Name := clusterPropagationPolicyName
    Spec :=
      { ResourceSelectors :=
          [{ APIVersion := "apiextensions.k8s.io/v1"
             Kind := "CustomResourceDefinition"
             Name := "serviceexports.multicluster.x-k8s.io" }]
        Placement := { ClusterAffinity := some { ClusterNames := clusters } } } }

/-- Method `createClusterPropagationPolicy`: lists the clusters, takes the name of each
listed item, and creates the policy with these names. -/
def createClusterPropagationPolicy (f : Faults) (s : Store) : Run :=
  match Client.List f s with
  | .error err => ⟨s, [.ListClusters], .failure err⟩
  | .ok clusters =>
    let clusterNames := clusters.map (fun cluster => cluster.Name)
    let policy := clusterPropagationPolicy clusterNames
    match Client.Create f s policy with
    | .error err => ⟨s, [.ListClusters, .Create policy], .failure err⟩
    | .ok s' => ⟨s', [.ListClusters, .Create policy], .success⟩

/-- The scan loop of `syncClusterPropagationPolicy`,
`for ; index < len(clusters); index++ { if clusters[index] == clusterName { break } }`:
the first argument is `clusters[index:]`, the result is the value of `index` after the
loop. -/
def scanLoop (clusterName : String) : List String → Nat → Nat
  | [], index => index
  | c :: rest, index =>
    if c == clusterName then index else scanLoop clusterName rest (index + 1)

/-- The read `policy.Spec.Placement.ClusterAffinity.ClusterNames`; `none` when
`ClusterAffinity` is nil (the read dereferences a nil pointer). -/
def readClusterNames (policy : ClusterPropagationPolicy) : Option (List String) :=
  match policy.Spec.Placement.ClusterAffinity with
  | none => none
  | some affinity => some affinity.ClusterNames

/-- The assignment `policy.Spec.Placement.ClusterAffinity.ClusterNames = clusters`; every
other field of the policy keeps its value. -/
def setClusterNames (policy : ClusterPropagationPolicy) (clusters : List String) :
    ClusterPropagationPolicy :=
  { policy with
    Spec := { policy.Spec with
      Placement := { policy.Spec.Placement with
        ClusterAffinity :=
          match policy.Spec.Placement.ClusterAffinity with
          | none => none
          | some affinity => some { affinity with ClusterNames := clusters } } } }

/-- The tail of `syncClusterPropagationPolicy` (from line 102): assign the new list and
update the policy. -/
def updateClusterNames (f : Faults) (s : Store) (policy : ClusterPropagationPolicy)
    (clusters : List String) : Run :=
  let policy' := setClusterNames policy clusters
  match Client.Update f s policy' with
  | .error err => ⟨s, [.Update policy'], .failure err⟩
  | .ok s' => ⟨s', [.Update policy'], .success⟩

/-- The run `r` with the call `c` issued before it. -/
def Run.after (c : Call) (r : Run) : Run :=
  { r with calls := c :: r.calls }

/-- Method `syncClusterPropagationPolicy`. -/
def syncClusterPropagationPolicy (f : Faults) (s : Store) (clusterName : String)
    (t : eventType) : Run :=
  Run.after (.GetPolicy clusterPropagationPolicyName) <|
  match Client.GetPolicy f s clusterPropagationPolicyName with
  | .error err =>
    if IsNotFound err then createClusterPropagationPolicy f s
    else ⟨s, [], .failure err⟩
  | .ok policy =>
    match readClusterNames policy with
    | none => ⟨s, [], .nilDereference⟩
    | some clusters =>
      let index := scanLoop clusterName clusters 0
      match t with
      | .ensure =>
        if index < clusters.length then ⟨s, [], .success⟩
        else updateClusterNames f s policy (clusters ++ [clusterName])
      | .remove =>
        if index ≥ clusters.length then ⟨s, [], .success⟩
        else updateClusterNames f s policy (clusters.take index ++ clusters.drop (index + 1))

/-- Method `Reconcile`.  `cluster` starts as the zero value `&Cluster{}`; a `Get` that
returns an error leaves it as it is, so on the not-found path `cluster.Name` is the name of
the zero value. -/
def Reconcile (f : Faults) (s : Store) (req : String) : Run :=
  let cluster : Cluster := {}
  Run.after (.GetCluster req) <|
  match Client.GetCluster f s req with
  | .error err =>
    if IsNotFound err then syncClusterPropagationPolicy f s cluster.Name .remove
    else ⟨s, [], .failure err⟩
  | .ok cluster =>
    if !IsZero cluster.DeletionTimestamp then
      syncClusterPropagationPolicy f s cluster.Name .remove
    else
      syncClusterPropagationPolicy f s cluster.Name .ensure

/-! ## The watch wiring and the world around the controller -/

/-- The map function `cppHandlerFn` of `SetupWithManager`: whatever the object, one request,
for a fictional cluster. -/
def cppHandlerFn {α : Type} (_object : α) : List String :=
  ["no-exist-cluster"]

/-- What happens to the store from outside the controller. -/
inductive ExternalEvent where
  | sourceCreated (name : String)
  | sourceDeletionMarked (name : String) (timestamp : Nat)
  | sourceDeleted (name : String)
  | aggregateDeleted
deriving DecidableEq, Repr

/-- The store after an external event.  A Cluster is created live, under a name that is
not taken; marking sets the deletion timestamp of the Cluster of that name; deleting
removes the object. -/
def Store.applyExternal (s : Store) : ExternalEvent → Store
  | .sourceCreated name =>
    if s.clusters.any (fun c => c.Name == name) then s
    else { s with clusters := s.clusters ++ [{ Name := name }] }
  | .sourceDeletionMarked name timestamp =>
    { s with clusters := s.clusters.map (fun c =>
        if c.Name == name then { c with DeletionTimestamp := some timestamp } else c) }
  | .sourceDeleted name =>
    { s with clusters := s.clusters.filter (fun c => !(c.Name == name)) }
  | .aggregateDeleted =>
    { s with policies := s.policies.filter (fun p => !(p.Name == clusterPropagationPolicyName)) }

/-- The reconcile requests an external event enqueues: the name of the Cluster for a
Cluster event, the requests of `cppHandlerFn` for the deletion of the policy. -/
def requestsOf : ExternalEvent → List String
  | .sourceCreated name => [name]
  | .sourceDeletionMarked name _ => [name]
  | .sourceDeleted name => [name]
  | .aggregateDeleted => cppHandlerFn ()

/-- An external event followed by the reconciles it enqueues, run one after the other on a
store whose calls go through. -/
def reconcileAfter (s : Store) (e : ExternalEvent) : Store :=
  (requestsOf e).foldl (fun s' req => (Reconcile noFaults s' req).store) (s.applyExternal e)

/-- A sequence of external events, each followed by its reconciles. -/
def settle (s : Store) (events : List ExternalEvent) : Store :=
  events.foldl reconcileAfter s

/-- One step of an arbitrary interleaving: an external event, or a reconcile for any
request against a store with any faults. -/
inductive Action where
  | external (e : ExternalEvent)
  | reconcile (f : Faults) (req : String)

/-- The store after one step. -/
def Store.act (s : Store) : Action → Store
  | .external e => s.applyExternal e
  | .reconcile f req => (Reconcile f s req).store

/-- The store after a sequence of steps. -/
def Store.runActions (s : Store) (actions : List Action) : Store :=
  actions.foldl Store.act s

/-- The membership list of the policy `serviceexport-policy`, when the policy exists and
has a cluster affinity. -/
def Store.aggregateNames (s : Store) : Option (List String) :=
  match s.getPolicy clusterPropagationPolicyName with
  | none => none
  | some policy => readClusterNames policy

/-- The names of the Clusters in the store whose deletion timestamp is zero. -/
def Store.liveNames (s : Store) : List String :=
  (s.clusters.filter (fun c => IsZero c.DeletionTimestamp)).map (fun c => c.Name)

/-! ## Concrete stores for the examples -/

/-- A live Cluster `member1` and a Cluster `member2` with a deletion timestamp; no policy. -/
def storeLiveAndMarked : Store :=
  { clusters := [{ Name := "member1" }, { Name := "member2", DeletionTimestamp := some 7 }] }

/-- No Cluster at all; the policy lists `member1`. -/
def storeOrphanEntry : Store :=
  { policies := [clusterPropagationPolicy ["member1"]] }

/-- Live Clusters `member1` and `member2`; the policy lists `member1` only. -/
def storeJoining : Store :=
  { clusters := [{ Name := "member1" }, { Name := "member2" }]
    policies := [clusterPropagationPolicy ["member1"]] }

/-- Cluster `member2` has a deletion timestamp; the policy lists it between two others. -/
def storeLeaving : Store :=
  { clusters := [{ Name := "member1" }, { Name := "member2", DeletionTimestamp := some 7 },
      { Name := "member3" }]
    policies := [clusterPropagationPolicy ["member1", "member2", "member3"]] }

/-- Cluster `member1` has a deletion timestamp; the policy lists it twice. -/
def storeDuplicate : Store :=
  { clusters := [{ Name := "member1", DeletionTimestamp := some 7 }]
    policies := [clusterPropagationPolicy ["member1", "member1"]] }

/-- Cluster `member1` has a deletion timestamp; there is no policy. -/
def storeMarkedOnly : Store :=
  { clusters := [{ Name := "member1", DeletionTimestamp := some 7 }] }

/-! ## The event filters of `SetupWithManager` -/

/-- Type `event.CreateEvent`, with the metadata of its object. -/
structure CreateEvent where
  Object : ObjectMeta
deriving DecidableEq, Repr

/-- Type `event.UpdateEvent`, with the metadata of the object before and after. -/
structure UpdateEvent where
  ObjectOld : ObjectMeta
  ObjectNew : ObjectMeta
deriving DecidableEq, Repr

/-- Type `event.DeleteEvent`. -/
structure DeleteEvent where
  Object : ObjectMeta
deriving DecidableEq, Repr

/-- Type `event.GenericEvent`. -/
structure GenericEvent where
  Object : ObjectMeta
deriving DecidableEq, Repr

/-- Type `predicate.Funcs`: one function for each type of event. -/
structure Funcs where
  CreateFunc : CreateEvent → Bool
  UpdateFunc : UpdateEvent → Bool
  DeleteFunc : DeleteEvent → Bool
  GenericFunc : GenericEvent → Bool

/-- The predicate `clusterFilter` of `SetupWithManager`; `equality.Semantic.DeepEqual` on
two booleans is their equality. -/
def clusterFilter : Funcs :=
  { CreateFunc := fun _event => true
    UpdateFunc := fun updateEvent =>
      !(IsZero updateEvent.ObjectOld.DeletionTimestamp ==
        IsZero updateEvent.ObjectNew.DeletionTimestamp)
    DeleteFunc := fun _deleteEvent => true
    GenericFunc := fun _genericEvent => false }

/-- The predicate `cppFilter` of `SetupWithManager`. -/
def cppFilter : Funcs :=
  { CreateFunc := fun _event => false
    UpdateFunc := fun _updateEvent => false
    DeleteFunc := fun deleteEvent => deleteEvent.Object.Name == clusterPropagationPolicyName
    GenericFunc := fun _genericEvent => false }

/-- An event of a watch, of one of the four types. -/
inductive WatchEvent where
  | Create (e : CreateEvent)
  | Update (e : UpdateEvent)
  | Delete (e : DeleteEvent)
  | Generic (e : GenericEvent)
deriving DecidableEq, Repr

/-- The answer of a predicate to an event: the function for the type of the event. -/
def Funcs.apply (p : Funcs) : WatchEvent → Bool
  | .Create e => p.CreateFunc e
  | .Update e => p.UpdateFunc e
  | .Delete e => p.DeleteFunc e
  | .Generic e => p.GenericFunc e

/-- An event of a watch reaches the handler when every predicate of the watch answers
true. -/
def passes (predicates : List Funcs) (e : WatchEvent) : Bool :=
  predicates.all (fun p => p.apply e)

/-- The predicates on the watch of Clusters, `For(&Cluster{})`: the ones of
`WithEventFilter`. -/
def clusterPredicates : List Funcs := [clusterFilter]

/-- The predicates on the watch of ClusterPropagationPolicies: the ones of
`WithEventFilter` and the ones given with `Watches`. -/
def cppPredicates : List Funcs := [clusterFilter, cppFilter]

/-! ## The answers of the store to the calls of a run -/

/-- Whether a call is a `Get`. -/
def Call.isGet : Call → Bool
  | .GetCluster _ => true
  | .GetPolicy _ => true
  | _ => false

/-- The error of a result, if it is one. -/
def errorOf {α : Type} : Except StatusError α → Option StatusError
  | .error err => some err
  | .ok _ => none

/-- The error the store `s` under the faults `f` answers to a call, if any. -/
def Client.response (f : Faults) (s : Store) : Call → Option StatusError
  | .GetCluster name => errorOf (Client.GetCluster f s name)
  | .GetPolicy name => errorOf (Client.GetPolicy f s name)
  | .ListClusters => errorOf (Client.List f s)
  | .Create policy => errorOf (Client.Create f s policy)
  | .Update policy => errorOf (Client.Update f s policy)

/-- The error a call is answered with, unless it is a not-found error on a `Get`. -/
def Client.abortError (f : Faults) (s : Store) (c : Call) : Option StatusError :=
  match Client.response f s c with
  | none => none
  | some err => if c.isGet && IsNotFound err then none else some err

/-- The error a run returns, as a list: one error or none. -/
def Outcome.errors : Outcome → List StatusError
  | .failure err => [err]
  | _ => []

/-- A store whose `Update` answers with a conflict. -/
def conflictOnUpdate : Faults
  | .UpdatePolicy => some .Conflict
  | _ => none

/-- Live Clusters `A` and `B`, in this order; no policy. -/
def storeAB : Store :=
  { clusters := [{ Name := "A" }, { Name := "B" }] }

end crdsynchronizer

namespace indexes

/-! ## The service reference index of a MultiClusterIngress -/

def IndexKeyServiceRefName : String := "mci.serviceRef.name"

/-- Type `networkingv1.IngressServiceBackend`: the referenced Service, by name. -/
structure IngressServiceBackend where
  Name : String := ""
deriving DecidableEq, Repr

/-- Type `networkingv1.IngressBackend`; `Service` is a pointer and may be nil. -/
structure IngressBackend where
  Service : Option IngressServiceBackend := none
deriving DecidableEq, Repr

/-- Type `networkingv1.HTTPIngressPath`. -/
structure HTTPIngressPath where
  Backend : IngressBackend := {}
deriving DecidableEq, Repr

/-- Type `networkingv1.HTTPIngressRuleValue`. -/
structure HTTPIngressRuleValue where
  Paths : List HTTPIngressPath := []
deriving DecidableEq, Repr

/-- Type `networkingv1.IngressRule`; `HTTP` is a pointer and may be nil. -/
structure IngressRule where
  HTTP : Option HTTPIngressRuleValue := none
deriving DecidableEq, Repr

/-- Type `networkingv1alpha1.MultiClusterIngressSpec`; `DefaultBackend` is a pointer and may
be nil. -/
structure MultiClusterIngressSpec where
  DefaultBackend : Option IngressBackend := none
  Rules : List IngressRule := []
deriving DecidableEq, Repr

/-- Type `networkingv1alpha1.MultiClusterIngress`. -/
structure MultiClusterIngress where
  Spec : MultiClusterIngressSpec := {}
deriving DecidableEq, Repr

/-- Type `sets.String` of `k8s.io/apimachinery`, a `map[string]Empty`: its keys, each once,
in the order they were first inserted. -/
structure StringSet where
  keys : List String := []
deriving DecidableEq, Repr

/-- Function `sets.NewString()` without arguments: the empty set. -/
def sets.NewString : StringSet := {}

/-- Method `sets.String.Insert`: `s[item] = Empty{}`. -/
def StringSet.Insert (s : StringSet) (item : String) : StringSet :=
  if item ∈ s.keys then s else { keys := s.keys ++ [item] }

/-- Method `sets.String.List`: the keys as a slice sorted with `<` on strings.  Go compares
strings byte by byte; on valid UTF-8 this is the order of the code points, which is the
order of `String` here. -/
def StringSet.List (s : StringSet) : List String :=
  s.keys.insertionSort (fun a b => a ≤ b)

/-- The first part of `BuildServiceRefIndexes` (lines 30 to 42): the default backend, if
any, followed by the backend of every path of every rule whose `HTTP` is not nil. -/
def collectBackends (mci : MultiClusterIngress) : List IngressBackend :=
  let backends : List IngressBackend :=
    match mci.Spec.DefaultBackend with
    | some backend => [] ++ [backend]
    | none => []
  mci.Spec.Rules.foldl (fun backends rule =>
    match rule.HTTP with
    | none => backends
    | some http => http.Paths.foldl (fun backends path => backends ++ [path.Backend]) backends)
    backends

/-- The loop `for _, backend := range backends { svcNames.Insert(backend.Service.Name) }`;
`none` when some `backend.Service` is nil (the loop dereferences a nil pointer). -/
def insertServiceNames : List IngressBackend → StringSet → Option StringSet
  | [], svcNames => some svcNames
  | backend :: rest, svcNames =>
    match backend.Service with
    | none => none
    | some service => insertServiceNames rest (svcNames.Insert service.Name)

/-- Function `BuildServiceRefIndexes`: the service refs in the MultiClusterIngress object;
`none` for a nil pointer dereference. -/
def BuildServiceRefIndexes (mci : MultiClusterIngress) : Option (List String) :=
  match insertServiceNames (collectBackends mci) sets.NewString with
  | none => none
  | some svcNames => some svcNames.List

/-- A MultiClusterIngress with default backend `web`, a rule without `HTTP`, and a rule with
paths to `web`, `api` and `web` again. -/
def mciWebApi : MultiClusterIngress :=
  { Spec :=
      { DefaultBackend := some { Service := some { Name := "web" } }
        Rules :=
          [{ HTTP := none },
           { HTTP := some { Paths :=
              [{ Backend := { Service := some { Name := "web" } } },
               { Backend := { Service := some { Name := "api" } } },
               { Backend := { Service := some { Name := "web" } } }] } }] } }

/-- A MultiClusterIngress whose default backend has no `Service` (a backend that points to
a resource) and that has no rules. -/
def mciResourceBackend : MultiClusterIngress :=
  { Spec := { DefaultBackend := some { Service := none } } }

/-- A MultiClusterIngress with a path to `web` followed by a path whose backend has no
`Service`. -/
def mciResourcePath : MultiClusterIngress :=
  { Spec :=
      { Rules :=
          [{ HTTP := some { Paths :=
              [{ Backend := { Service := some { Name := "web" } } },
               { Backend := { Service := none } }] } }] } }

/-- A MultiClusterIngress without default backend whose rules have no `HTTP` or no path. -/
def mciNoBackends : MultiClusterIngress :=
  { Spec := { Rules := [{ HTTP := none }, { HTTP := some { Paths := [] } }, { HTTP := none }] } }

end indexes

/-! # Theorems -/

namespace crdsynchronizer

/-! ## The scan loop and the client -/

theorem getCluster_name {s : Store} {name : String} {c : Cluster}
    (h : s.getCluster name = some c) : c.Name = name := by
  have := List.find?_some h
  simpa using this

theorem getPolicy_name {s : Store} {name : String} {p : ClusterPropagationPolicy}
    (h : s.getPolicy name = some p) : p.Name = name := by
  have := List.find?_some h
  simpa using this

theorem scanLoop_shift (n : String) (l : List String) (k : Nat) :
    scanLoop n l k = k + scanLoop n l 0 := by
  induction l generalizing k with
  | nil => simp [scanLoop]
  | cons c rest ih =>
    simp only [scanLoop]
    split
    · simp
    · rw [ih (k + 1), ih (0 + 1)]; omega

theorem scanLoop_lt_iff_mem (n : String) (l : List String) :
    scanLoop n l 0 < l.length ↔ n ∈ l := by
  induction l with
  | nil => simp [scanLoop]
  | cons c rest ih =>
    simp only [scanLoop]
    by_cases h : c = n
    · simp [h]
    · have h' : n ≠ c := fun e => h e.symm
      simp [h, h', scanLoop_shift n rest (0 + 1), ← ih]
      omega

theorem take_drop_scanLoop (n : String) (l : List String) :
    l.take (scanLoop n l 0) ++ l.drop (scanLoop n l 0 + 1) = l.erase n := by
  induction l with
  | nil => simp [scanLoop]
  | cons c rest ih =>
    simp only [scanLoop]
    by_cases h : c = n
    · simp [h]
    · simp [h, scanLoop_shift n rest (0 + 1), List.erase_cons]
      rw [show 1 + scanLoop n rest 0 = scanLoop n rest 0 + 1 by omega]
      simpa using ih

theorem Reconcile_found (f : Faults) (s : Store) (req : String) (c : Cluster)
    (hf : f .GetCluster = none) (hc : s.getCluster req = some c) :
    Reconcile f s req =
      Run.after (.GetCluster req) (syncClusterPropagationPolicy f s req
        (if IsZero c.DeletionTimestamp then .ensure else .remove)) := by
  have hn := getCluster_name hc
  unfold Reconcile Client.GetCluster
  simp only [hf, hc]
  cases h : IsZero c.DeletionTimestamp <;> simp [hn]

theorem Reconcile_missing (f : Faults) (s : Store) (req : String)
    (hf : f .GetCluster = none) (hc : s.getCluster req = none) :
    Reconcile f s req =
      Run.after (.GetCluster req) (syncClusterPropagationPolicy f s "" .remove) := by
  unfold Reconcile Client.GetCluster
  simp [hf, hc, IsNotFound]

theorem sync_absent (f : Faults) (s : Store) (n : String) (t : eventType)
    (hf : f .GetPolicy = none) (hp : s.getPolicy clusterPropagationPolicyName = none) :
    syncClusterPropagationPolicy f s n t =
      Run.after (.GetPolicy clusterPropagationPolicyName)
        (createClusterPropagationPolicy f s) := by
  unfold syncClusterPropagationPolicy Client.GetPolicy
  simp [hf, hp, IsNotFound]

theorem sync_ensure (f : Faults) (s : Store) (n : String)
    (p : ClusterPropagationPolicy) (L : List String)
    (hf : f .GetPolicy = none) (hp : s.getPolicy clusterPropagationPolicyName = some p)
    (hL : readClusterNames p = some L) :
    syncClusterPropagationPolicy f s n .ensure =
      Run.after (.GetPolicy clusterPropagationPolicyName)
        (if n ∈ L then ⟨s, [], .success⟩ else updateClusterNames f s p (L ++ [n])) := by
  unfold syncClusterPropagationPolicy Client.GetPolicy
  simp only [hf, hp, hL, scanLoop_lt_iff_mem]

theorem sync_remove (f : Faults) (s : Store) (n : String)
    (p : ClusterPropagationPolicy) (L : List String)
    (hf : f .GetPolicy = none) (hp : s.getPolicy clusterPropagationPolicyName = some p)
    (hL : readClusterNames p = some L) :
    syncClusterPropagationPolicy f s n .remove =
      Run.after (.GetPolicy clusterPropagationPolicyName)
        (if n ∈ L then updateClusterNames f s p (L.erase n) else ⟨s, [], .success⟩) := by
  unfold syncClusterPropagationPolicy Client.GetPolicy
  simp only [hf, hp, hL, take_drop_scanLoop, ge_iff_le, ← not_lt, scanLoop_lt_iff_mem]
  by_cases h : n ∈ L <;> simp [h]

theorem sync_nil (f : Faults) (s : Store) (n : String) (t : eventType)
    (p : ClusterPropagationPolicy)
    (hf : f .GetPolicy = none) (hp : s.getPolicy clusterPropagationPolicyName = some p)
    (hL : readClusterNames p = none) :
    syncClusterPropagationPolicy f s n t =
      ⟨s, [.GetPolicy clusterPropagationPolicyName], .nilDereference⟩ := by
  unfold syncClusterPropagationPolicy Client.GetPolicy
  simp [hf, hp, hL, Run.after]

theorem getPolicy_replace (ps : List ClusterPropagationPolicy) (name : String)
    (p : ClusterPropagationPolicy) (hp : p.Name = name)
    (h : ∃ q ∈ ps, q.Name = name) :
    (ps.map (fun q => if q.Name == p.Name then p else q)).find? (fun q => q.Name == name)
      = some p := by
  induction ps with
  | nil => simp at h
  | cons q rest ih =>
    by_cases hq : q.Name = name
    · simp [List.find?_cons, hq, hp]
    · have hq' : ¬ q.Name = p.Name := by rw [hp]; exact hq
      have h' : ∃ q ∈ rest, q.Name = name := by
        obtain ⟨x, hx, hxn⟩ := h
        rcases List.mem_cons.1 hx with rfl | hx
        · exact absurd hxn hq
        · exact ⟨x, hx, hxn⟩
      simpa [List.find?_cons, hq, hq'] using ih h'

theorem setClusterNames_name (p : ClusterPropagationPolicy) (L : List String) :
    (setClusterNames p L).Name = p.Name := rfl

theorem readClusterNames_set (p : ClusterPropagationPolicy) (L L' : List String)
    (h : readClusterNames p = some L) : readClusterNames (setClusterNames p L') = some L' := by
  unfold readClusterNames at h
  unfold readClusterNames setClusterNames
  cases hca : p.Spec.Placement.ClusterAffinity with
  | none => simp [hca] at h
  | some a => simp [hca]

theorem update_ok (f : Faults) (s : Store) (p : ClusterPropagationPolicy) (L : List String)
    (hf : f .UpdatePolicy = none) (hp : s.getPolicy clusterPropagationPolicyName = some p) :
    (updateClusterNames f s p L).outcome = .success ∧
    (updateClusterNames f s p L).calls = [.Update (setClusterNames p L)] ∧
    (updateClusterNames f s p L).store.clusters = s.clusters ∧
    (updateClusterNames f s p L).store.getPolicy clusterPropagationPolicyName
      = some (setClusterNames p L) := by
  have hn := getPolicy_name hp
  have hany : s.policies.any (fun q => q.Name == (setClusterNames p L).Name) = true := by
    rw [setClusterNames_name, hn]
    have := List.mem_of_find?_eq_some hp
    simp only [List.any_eq_true, beq_iff_eq]
    exact ⟨p, this, hn⟩
  unfold updateClusterNames Client.Update
  simp only [hf, hany, if_true]
  refine ⟨trivial, trivial, trivial, ?_⟩
  unfold Store.getPolicy
  exact getPolicy_replace s.policies _ _ (by rw [setClusterNames_name, hn])
    ⟨p, List.mem_of_find?_eq_some hp, hn⟩

/-! ## Claims on the CRD synchronizer -/

theorem scanLoop_spec (n : String) (l : List String) (h : n ∈ l) :
    l[scanLoop n l 0]? = some n ∧ ∀ j, j < scanLoop n l 0 → l[j]? ≠ some n := by
  induction l with
  | nil => simp at h
  | cons c rest ih =>
    simp only [scanLoop]
    by_cases hc : c = n
    · simp [hc]
    · have hmem : n ∈ rest := by
        rcases List.mem_cons.1 h with e | e
        · exact absurd e.symm hc
        · exact e
      obtain ⟨h1, h2⟩ := ih hmem
      rw [scanLoop_shift n rest (0 + 1)]
      simp only [beq_iff_eq, hc, if_false]
      refine ⟨?_, ?_⟩
      · rw [show 0 + 1 + scanLoop n rest 0 = scanLoop n rest 0 + 1 by omega]
        simpa using h1
      · intro j hj
        cases j with
        | zero => simpa using hc
        | succ k =>
          have := h2 k (by omega)
          simpa using this

theorem update_calls (f : Faults) (s : Store) (p : ClusterPropagationPolicy) (L : List String) :
    (updateClusterNames f s p L).calls = [.Update (setClusterNames p L)] := by
  unfold updateClusterNames
  simp only []
  cases Client.Update f s (setClusterNames p L) <;> rfl

theorem aggregateNames_of_getPolicy {s : Store} {p : ClusterPropagationPolicy}
    (h : s.getPolicy clusterPropagationPolicyName = some p) :
    s.aggregateNames = readClusterNames p := by
  unfold Store.aggregateNames
  rw [h]

/-- C1, evaluated on the code: after the events "`member1` created" and "`member1` deleted
from the store", each followed by its reconcile, the policy still lists `member1` although
no Cluster is left; and after "`member1` created", "`member1` marked for deletion", "policy
deleted", each followed by its reconcile, the re-created policy lists `member1` although it
is not live. -/
theorem C1_convergence_fails :
    (settle {} [.sourceCreated "member1", .sourceDeleted "member1"]).aggregateNames
        = some ["member1"] ∧
      (settle {} [.sourceCreated "member1", .sourceDeleted "member1"]).liveNames = [] ∧
      (settle {} [.sourceCreated "member1", .sourceDeletionMarked "member1" 7,
          .aggregateDeleted]).aggregateNames = some ["member1"] ∧
      (settle {} [.sourceCreated "member1", .sourceDeletionMarked "member1" 7,
          .aggregateDeleted]).liveNames = [] := by
  decide

/-- C2, evaluated on the code: with no policy in the store, a live `member1` and a
`member2` that carries a deletion timestamp, the reconcile succeeds and creates a policy
that lists both, although only `member1` is live. -/
theorem C2_bootstrap_lists_marked_cluster :
    storeLiveAndMarked.getPolicy clusterPropagationPolicyName = none ∧
      storeLiveAndMarked.liveNames = ["member1"] ∧
      (Reconcile noFaults storeLiveAndMarked "member1").outcome = .success ∧
      (Reconcile noFaults storeLiveAndMarked "member1").calls =
        [.GetCluster "member1", .GetPolicy clusterPropagationPolicyName, .ListClusters,
          .Create (clusterPropagationPolicy ["member1", "member2"])] ∧
      (Reconcile noFaults storeLiveAndMarked "member1").store.aggregateNames
        = some ["member1", "member2"] := by
  decide

/-- C3, evaluated on the code: no Cluster `member1` exists and the policy lists `member1`;
the reconcile for `member1` reads the Cluster and the policy, writes nothing, and leaves
`member1` in the list. -/
theorem C3_not_found_keeps_entry :
    storeOrphanEntry.getCluster "member1" = none ∧
      storeOrphanEntry.aggregateNames = some ["member1"] ∧
      Reconcile noFaults storeOrphanEntry "member1" =
        ⟨storeOrphanEntry,
          [.GetCluster "member1", .GetPolicy clusterPropagationPolicyName], .success⟩ := by
  decide

/-- C4: when the Cluster `id` exists with a zero deletion timestamp and the policy exists
with a membership list `L` that does not contain `id`, the reconcile for `id` reads both and
issues one update, of the policy with list `L ++ [id]`; when the update goes through, the
reconcile returns success and the stored policy has the list `L ++ [id]`. -/
theorem C4_ensure_present_appends (f : Faults) (s : Store) (id : String) (c : Cluster)
    (p : ClusterPropagationPolicy) (L : List String)
    (hget : f .GetCluster = none ∧ f .GetPolicy = none)
    (hc : s.getCluster id = some c) (hlive : IsZero c.DeletionTimestamp = true)
    (hp : s.getPolicy clusterPropagationPolicyName = some p)
    (hL : readClusterNames p = some L) (hid : id ∉ L) :
    (Reconcile f s id).calls =
        [.GetCluster id, .GetPolicy clusterPropagationPolicyName,
          .Update (setClusterNames p (L ++ [id]))] ∧
      (f .UpdatePolicy = none →
        (Reconcile f s id).outcome = .success ∧
        (Reconcile f s id).store.getPolicy clusterPropagationPolicyName
          = some (setClusterNames p (L ++ [id])) ∧
        (Reconcile f s id).store.aggregateNames = some (L ++ [id])) := by
  rw [Reconcile_found f s id c hget.1 hc, hlive, if_pos rfl,
    sync_ensure f s id p L hget.2 hp hL, if_neg hid]
  refine ⟨by simp [Run.after, update_calls], fun hu => ?_⟩
  obtain ⟨h1, -, -, h4⟩ := update_ok f s p (L ++ [id]) hu hp
  refine ⟨h1, h4, ?_⟩
  show (updateClusterNames f s p (L ++ [id])).store.aggregateNames = _
  rw [aggregateNames_of_getPolicy h4, readClusterNames_set p L _ hL]

/-- C4 on `storeJoining`: `member2` is live and not yet listed. -/
theorem C4_ensure_present_appends_witness :
    (Reconcile noFaults storeJoining "member2").calls =
        [.GetCluster "member2", .GetPolicy clusterPropagationPolicyName,
          .Update (setClusterNames (clusterPropagationPolicy ["member1"])
            (["member1"] ++ ["member2"]))] ∧
      (noFaults .UpdatePolicy = none →
        (Reconcile noFaults storeJoining "member2").outcome = .success ∧
        (Reconcile noFaults storeJoining "member2").store.getPolicy
            clusterPropagationPolicyName
          = some (setClusterNames (clusterPropagationPolicy ["member1"])
              (["member1"] ++ ["member2"])) ∧
        (Reconcile noFaults storeJoining "member2").store.aggregateNames
          = some (["member1"] ++ ["member2"])) :=
  C4_ensure_present_appends noFaults storeJoining "member2" { Name := "member2" }
    (clusterPropagationPolicy ["member1"]) ["member1"] ⟨rfl, rfl⟩ (by decide) (by decide)
    (by decide) (by decide) (by decide)

/-- C5: when the Cluster `id` exists with a non-zero deletion timestamp and the policy
exists with a membership list `L` that contains `id`, the reconcile for `id` issues one
update, of the policy whose list is `L` without the entry at the least index `i` with
`L[i] = id`, that is `L[0..i) ++ L[i+1..)`; every other entry, later copies of `id`
included, stays in place.  When the update goes through, the reconcile returns success and
the stored policy has that list. -/
theorem C5_remove_first_occurrence (f : Faults) (s : Store) (id : String) (c : Cluster)
    (p : ClusterPropagationPolicy) (L : List String)
    (hget : f .GetCluster = none ∧ f .GetPolicy = none)
    (hc : s.getCluster id = some c) (hmarked : IsZero c.DeletionTimestamp = false)
    (hp : s.getPolicy clusterPropagationPolicyName = some p)
    (hL : readClusterNames p = some L) (hid : id ∈ L) :
    ∃ i, i < L.length ∧ L[i]? = some id ∧ (∀ j, j < i → L[j]? ≠ some id) ∧
      (Reconcile f s id).calls =
        [.GetCluster id, .GetPolicy clusterPropagationPolicyName,
          .Update (setClusterNames p (L.take i ++ L.drop (i + 1)))] ∧
      (f .UpdatePolicy = none →
        (Reconcile f s id).outcome = .success ∧
        (Reconcile f s id).store.aggregateNames = some (L.take i ++ L.drop (i + 1))) := by
  refine ⟨scanLoop id L 0, (scanLoop_lt_iff_mem id L).2 hid, (scanLoop_spec id L hid).1,
    (scanLoop_spec id L hid).2, ?_⟩
  rw [Reconcile_found f s id c hget.1 hc, hmarked, if_neg (by simp),
    sync_remove f s id p L hget.2 hp hL, if_pos hid, take_drop_scanLoop]
  refine ⟨by simp [Run.after, update_calls], fun hu => ?_⟩
  obtain ⟨h1, -, -, h4⟩ := update_ok f s p (L.erase id) hu hp
  refine ⟨h1, ?_⟩
  show (updateClusterNames f s p (L.erase id)).store.aggregateNames = _
  rw [aggregateNames_of_getPolicy h4, readClusterNames_set p L _ hL]

/-- C5 on `storeLeaving`: `member2` carries a deletion timestamp and is listed. -/
theorem C5_remove_first_occurrence_witness :
    ∃ i, i < ["member1", "member2", "member3"].length ∧
      ["member1", "member2", "member3"][i]? = some "member2" ∧
      (∀ j, j < i → ["member1", "member2", "member3"][j]? ≠ some "member2") ∧
      (Reconcile noFaults storeLeaving "member2").calls =
        [.GetCluster "member2", .GetPolicy clusterPropagationPolicyName,
          .Update (setClusterNames (clusterPropagationPolicy ["member1", "member2", "member3"])
            (["member1", "member2", "member3"].take i ++
              ["member1", "member2", "member3"].drop (i + 1)))] ∧
      (noFaults .UpdatePolicy = none →
        (Reconcile noFaults storeLeaving "member2").outcome = .success ∧
        (Reconcile noFaults storeLeaving "member2").store.aggregateNames =
          some (["member1", "member2", "member3"].take i ++
            ["member1", "member2", "member3"].drop (i + 1))) :=
  C5_remove_first_occurrence noFaults storeLeaving "member2"
    { Name := "member2", DeletionTimestamp := some 7 }
    (clusterPropagationPolicy ["member1", "member2", "member3"])
    ["member1", "member2", "member3"] ⟨rfl, rfl⟩ (by decide) (by decide) (by decide)
    (by decide) (by decide)

/-- C8: when the policy exists with a membership list `L`, and either the Cluster `id` has
a zero deletion timestamp and `id` is in `L`, or it has a non-zero deletion timestamp and
`id` is not in `L`, the reconcile for `id` reads the Cluster and the policy, issues no
create and no update, returns success and leaves the store as it was. -/
theorem C8_noop_cases (f : Faults) (s : Store) (id : String) (c : Cluster)
    (p : ClusterPropagationPolicy) (L : List String)
    (hget : f .GetCluster = none ∧ f .GetPolicy = none)
    (hc : s.getCluster id = some c)
    (hp : s.getPolicy clusterPropagationPolicyName = some p)
    (hL : readClusterNames p = some L)
    (h : (IsZero c.DeletionTimestamp = true ∧ id ∈ L) ∨
      (IsZero c.DeletionTimestamp = false ∧ id ∉ L)) :
    Reconcile f s id =
      ⟨s, [.GetCluster id, .GetPolicy clusterPropagationPolicyName], .success⟩ := by
  rw [Reconcile_found f s id c hget.1 hc]
  rcases h with ⟨hz, hm⟩ | ⟨hz, hm⟩
  · rw [hz, if_pos rfl, sync_ensure f s id p L hget.2 hp hL, if_pos hm]; rfl
  · rw [hz, if_neg (by simp), sync_remove f s id p L hget.2 hp hL, if_neg hm]; rfl

/-- C8 on `storeJoining`: `member1` is live and already listed. -/
theorem C8_noop_cases_witness :
    Reconcile noFaults storeJoining "member1" =
      ⟨storeJoining, [.GetCluster "member1", .GetPolicy clusterPropagationPolicyName],
        .success⟩ :=
  C8_noop_cases noFaults storeJoining "member1" { Name := "member1" }
    (clusterPropagationPolicy ["member1"]) ["member1"] ⟨rfl, rfl⟩ (by decide) (by decide)
    (by decide) (Or.inl ⟨by decide, by decide⟩)

/-! ## Idempotence -/

theorem getCluster_congr {s s' : Store} (h : s'.clusters = s.clusters) (name : String) :
    s'.getCluster name = s.getCluster name := by
  unfold Store.getCluster
  rw [h]

theorem getPolicy_append_new (s : Store) (p : ClusterPropagationPolicy)
    (h : s.getPolicy p.Name = none) :
    Store.getPolicy { s with policies := s.policies ++ [p] } p.Name = some p := by
  unfold Store.getPolicy at h ⊢
  simp [List.find?_append, h]

theorem create_ok (s : Store)
    (hp : s.getPolicy clusterPropagationPolicyName = none) :
    createClusterPropagationPolicy noFaults s =
      ⟨{ s with policies := s.policies ++
          [clusterPropagationPolicy (s.clusters.map (fun c => c.Name))] },
        [.ListClusters,
          .Create (clusterPropagationPolicy (s.clusters.map (fun c => c.Name)))],
        .success⟩ := by
  have hany : s.policies.any (fun q => q.Name ==
      (clusterPropagationPolicy (s.clusters.map (fun c => c.Name))).Name) = false := by
    unfold Store.getPolicy at hp
    rw [List.find?_eq_none] at hp
    rw [Bool.eq_false_iff]
    intro h
    rw [List.any_eq_true] at h
    obtain ⟨q, hq, hqn⟩ := h
    exact hp q hq hqn
  unfold createClusterPropagationPolicy Client.List Client.Create
  simp only [noFaults, hany]
  rfl

theorem sync_idem_present (s : Store) (n : String) (t : eventType)
    (p : ClusterPropagationPolicy) (L : List String)
    (hp : s.getPolicy clusterPropagationPolicyName = some p)
    (hL : readClusterNames p = some L) (hnd : L.Nodup) :
    (syncClusterPropagationPolicy noFaults s n t).store.clusters = s.clusters ∧
    syncClusterPropagationPolicy noFaults
        (syncClusterPropagationPolicy noFaults s n t).store n t =
      ⟨(syncClusterPropagationPolicy noFaults s n t).store,
        [.GetPolicy clusterPropagationPolicyName], .success⟩ := by
  cases t with
  | ensure =>
    rw [sync_ensure noFaults s n p L rfl hp hL]
    by_cases hn : n ∈ L
    · rw [if_pos hn]
      refine ⟨rfl, ?_⟩
      show syncClusterPropagationPolicy noFaults s n .ensure = _
      rw [sync_ensure noFaults s n p L rfl hp hL, if_pos hn]; rfl
    · rw [if_neg hn]
      obtain ⟨-, -, h3, h4⟩ := update_ok noFaults s p (L ++ [n]) rfl hp
      refine ⟨h3, ?_⟩
      show syncClusterPropagationPolicy noFaults (updateClusterNames noFaults s p (L ++ [n])).store
        n .ensure = _
      rw [sync_ensure noFaults _ n _ (L ++ [n]) rfl h4 (readClusterNames_set p L _ hL),
        if_pos (by simp)]; rfl
  | remove =>
    rw [sync_remove noFaults s n p L rfl hp hL]
    by_cases hn : n ∈ L
    · rw [if_pos hn]
      obtain ⟨-, -, h3, h4⟩ := update_ok noFaults s p (L.erase n) rfl hp
      refine ⟨h3, ?_⟩
      show syncClusterPropagationPolicy noFaults (updateClusterNames noFaults s p (L.erase n)).store
        n .remove = _
      rw [sync_remove noFaults _ n _ (L.erase n) rfl h4 (readClusterNames_set p L _ hL),
        if_neg (hnd.not_mem_erase)]; rfl
    · rw [if_neg hn]
      refine ⟨rfl, ?_⟩
      show syncClusterPropagationPolicy noFaults s n .remove = _
      rw [sync_remove noFaults s n p L rfl hp hL, if_neg hn]; rfl

theorem sync_idem_absent (s : Store) (n : String) (t : eventType)
    (hp : s.getPolicy clusterPropagationPolicyName = none)
    (ht : (t = .ensure ∧ n ∈ s.clusters.map (fun c => c.Name)) ∨
      (t = .remove ∧ n ∉ s.clusters.map (fun c => c.Name))) :
    (syncClusterPropagationPolicy noFaults s n t).store.clusters = s.clusters ∧
    syncClusterPropagationPolicy noFaults
        (syncClusterPropagationPolicy noFaults s n t).store n t =
      ⟨(syncClusterPropagationPolicy noFaults s n t).store,
        [.GetPolicy clusterPropagationPolicyName], .success⟩ := by
  rw [sync_absent noFaults s n t rfl hp, create_ok s hp]
  refine ⟨rfl, ?_⟩
  have hget : Store.getPolicy
      { s with policies := s.policies ++
          [clusterPropagationPolicy (s.clusters.map (fun c => c.Name))] }
      clusterPropagationPolicyName
      = some (clusterPropagationPolicy (s.clusters.map (fun c => c.Name))) :=
    getPolicy_append_new s (clusterPropagationPolicy (s.clusters.map (fun c => c.Name))) hp
  show syncClusterPropagationPolicy noFaults { s with policies := _ } n t = _
  rcases ht with ⟨rfl, hn⟩ | ⟨rfl, hn⟩
  · rw [sync_ensure noFaults _ n _ _ rfl hget rfl, if_pos hn]; rfl
  · rw [sync_remove noFaults _ n _ _ rfl hget rfl, if_neg hn]; rfl

theorem sync_success_read (s : Store) (n : String) (t : eventType)
    (p : ClusterPropagationPolicy)
    (hp : s.getPolicy clusterPropagationPolicyName = some p)
    (h : (syncClusterPropagationPolicy noFaults s n t).outcome = .success) :
    ∃ L, readClusterNames p = some L := by
  cases hL : readClusterNames p with
  | some L => exact ⟨L, rfl⟩
  | none =>
    rw [sync_nil noFaults s n t p rfl hp hL] at h
    simp at h

theorem sync_idem (s : Store) (n : String) (t : eventType)
    (hdup : ∀ L, s.aggregateNames = some L → L.Nodup)
    (habsent : s.getPolicy clusterPropagationPolicyName = none →
      (t = .ensure ∧ n ∈ s.clusters.map (fun c => c.Name)) ∨
      (t = .remove ∧ n ∉ s.clusters.map (fun c => c.Name)))
    (hsucc : (syncClusterPropagationPolicy noFaults s n t).outcome = .success) :
    (syncClusterPropagationPolicy noFaults s n t).store.clusters = s.clusters ∧
    syncClusterPropagationPolicy noFaults
        (syncClusterPropagationPolicy noFaults s n t).store n t =
      ⟨(syncClusterPropagationPolicy noFaults s n t).store,
        [.GetPolicy clusterPropagationPolicyName], .success⟩ := by
  cases hp : s.getPolicy clusterPropagationPolicyName with
  | none => exact sync_idem_absent s n t hp (habsent hp)
  | some p =>
    obtain ⟨L, hL⟩ := sync_success_read s n t p hp hsucc
    exact sync_idem_present s n t p L hp hL
      (hdup L (by rw [aggregateNames_of_getPolicy hp, hL]))

/-- C6 as stated fails on the code.  On `storeDuplicate` (the policy lists `member1` twice,
the Cluster carries a deletion timestamp) the first reconcile succeeds and the second one
issues an update.  On `storeMarkedOnly` (no policy, the Cluster carries a deletion
timestamp) the first reconcile creates the policy and the second one issues an update. -/
theorem C6_second_reconcile_writes :
    (Reconcile noFaults storeDuplicate "member1").outcome = .success ∧
      (Reconcile noFaults (Reconcile noFaults storeDuplicate "member1").store "member1").calls
        = [.GetCluster "member1", .GetPolicy clusterPropagationPolicyName,
            .Update (clusterPropagationPolicy [])] ∧
      (Reconcile noFaults storeMarkedOnly "member1").outcome = .success ∧
      (Reconcile noFaults (Reconcile noFaults storeMarkedOnly "member1").store "member1").calls
        = [.GetCluster "member1", .GetPolicy clusterPropagationPolicyName,
            .Update (clusterPropagationPolicy [])] := by
  decide

/-- C6, amended: take a store in which the membership list of the policy, when the policy
exists, has no duplicate, in which the Cluster `id` has a zero deletion timestamp when the
policy does not exist, and in which no Cluster has the empty name.  If the reconcile for
`id` succeeds, a second reconcile for `id` on the store it leaves reads the Cluster and the
policy, issues no create and no update, returns success and leaves the store as it is. -/
theorem C6_idempotent (s : Store) (id : String)
    (hdup : ∀ L, s.aggregateNames = some L → L.Nodup)
    (hboot : s.getPolicy clusterPropagationPolicyName = none →
      ∀ c, s.getCluster id = some c → IsZero c.DeletionTimestamp = true)
    (hname : ∀ c ∈ s.clusters, c.Name ≠ "")
    (hsucc : (Reconcile noFaults s id).outcome = .success) :
    Reconcile noFaults (Reconcile noFaults s id).store id =
      ⟨(Reconcile noFaults s id).store,
        [.GetCluster id, .GetPolicy clusterPropagationPolicyName], .success⟩ := by
  cases hc : s.getCluster id with
  | none =>
    rw [Reconcile_missing noFaults s id rfl hc] at hsucc ⊢
    obtain ⟨h1, h2⟩ := sync_idem s "" .remove hdup
      (fun _ => Or.inr ⟨rfl, by
        intro hm
        obtain ⟨c, hcm, hcn⟩ := List.mem_map.1 hm
        exact hname c hcm hcn⟩) hsucc
    show Reconcile noFaults (syncClusterPropagationPolicy noFaults s "" .remove).store id = _
    rw [Reconcile_missing noFaults _ id rfl (by rw [getCluster_congr h1, hc]), h2]
    rfl
  | some c =>
    rw [Reconcile_found noFaults s id c rfl hc] at hsucc ⊢
    obtain ⟨h1, h2⟩ := sync_idem s id
      (if IsZero c.DeletionTimestamp then .ensure else .remove) hdup
      (fun hp => Or.inl ⟨by rw [hboot hp c hc, if_pos rfl],
        List.mem_map.2 ⟨c, List.mem_of_find?_eq_some hc, getCluster_name hc⟩⟩) hsucc
    show Reconcile noFaults (syncClusterPropagationPolicy noFaults s id _).store id = _
    rw [Reconcile_found noFaults _ id c rfl (by rw [getCluster_congr h1, hc]), h2]
    rfl

/-- C6, amended, on `storeLeaving`: the first reconcile for `member2` removes it from the
list, the second one writes nothing. -/
theorem C6_idempotent_witness :
    (Reconcile noFaults storeLeaving "member2").store.aggregateNames
        = some ["member1", "member3"] ∧
      Reconcile noFaults (Reconcile noFaults storeLeaving "member2").store "member2" =
        ⟨(Reconcile noFaults storeLeaving "member2").store,
          [.GetCluster "member2", .GetPolicy clusterPropagationPolicyName], .success⟩ :=
  ⟨by decide,
    C6_idempotent storeLeaving "member2"
      (fun L hL => by
        have h : storeLeaving.aggregateNames = some ["member1", "member2", "member3"] := by
          decide
        rw [h] at hL
        cases hL
        decide)
      (fun hp => by
        have h : storeLeaving.getPolicy clusterPropagationPolicyName ≠ none := by decide
        exact absurd hp h)
      (by decide) (by decide)⟩

/-! ## The membership list never holds a name twice -/

theorem aggregateNames_congr {s s' : Store} (h : s'.policies = s.policies) :
    s'.aggregateNames = s.aggregateNames := by
  unfold Store.aggregateNames Store.getPolicy
  rw [h]

theorem GetPolicy_ok {f : Faults} {s : Store} {name : String}
    {p : ClusterPropagationPolicy} (h : Client.GetPolicy f s name = .ok p) :
    s.getPolicy name = some p := by
  unfold Client.GetPolicy at h
  cases hf : f .GetPolicy with
  | some e => simp [hf] at h
  | none =>
    cases hp : s.getPolicy name with
    | none => simp [hf, hp] at h
    | some q =>
      simp only [hf, hp, Except.ok.injEq] at h
      rw [h]

theorem Create_ok {f : Faults} {s s' : Store} {p : ClusterPropagationPolicy}
    (h : Client.Create f s p = .ok s') :
    s'.clusters = s.clusters ∧ s'.getPolicy p.Name = some p := by
  unfold Client.Create at h
  cases hf : f .CreatePolicy with
  | some e => simp [hf] at h
  | none =>
    cases hany : s.policies.any (fun q => q.Name == p.Name) with
    | true => simp [hf, hany] at h
    | false =>
      simp only [hf, hany, Bool.false_eq_true, if_false, Except.ok.injEq] at h
      subst h
      refine ⟨rfl, getPolicy_append_new s p ?_⟩
      unfold Store.getPolicy
      rw [List.find?_eq_none]
      intro q hq hqn
      have : s.policies.any (fun q => q.Name == p.Name) = true :=
        List.any_eq_true.2 ⟨q, hq, hqn⟩
      rw [hany] at this
      exact Bool.false_ne_true this

theorem Update_ok {f : Faults} {s s' : Store} {p : ClusterPropagationPolicy}
    (h : Client.Update f s p = .ok s') :
    s'.clusters = s.clusters ∧ s'.getPolicy p.Name = some p := by
  unfold Client.Update at h
  cases hf : f .UpdatePolicy with
  | some e => simp [hf] at h
  | none =>
    cases hany : s.policies.any (fun q => q.Name == p.Name) with
    | false => simp [hf, hany] at h
    | true =>
      simp only [hf, hany, if_true, Except.ok.injEq] at h
      subst h
      refine ⟨rfl, ?_⟩
      obtain ⟨q, hq, hqn⟩ := List.any_eq_true.1 hany
      exact getPolicy_replace s.policies p.Name p rfl ⟨q, hq, by simpa using hqn⟩

/-- What a run of `createClusterPropagationPolicy` can do to the store, whatever the
faults: nothing, or store a policy that lists the names of all Clusters. -/
theorem create_store_cases (f : Faults) (s : Store) :
    (createClusterPropagationPolicy f s).store.clusters = s.clusters ∧
    ((createClusterPropagationPolicy f s).store = s ∨
      (createClusterPropagationPolicy f s).store.aggregateNames
        = some (s.clusters.map (fun c => c.Name))) := by
  unfold createClusterPropagationPolicy Client.List
  cases f .ListClusters with
  | some e => exact ⟨rfl, Or.inl rfl⟩
  | none =>
    simp only []
    cases hcr : Client.Create f s (clusterPropagationPolicy (s.clusters.map (fun c => c.Name))) with
    | error e => exact ⟨rfl, Or.inl rfl⟩
    | ok s' =>
      obtain ⟨h1, h2⟩ := Create_ok hcr
      refine ⟨h1, Or.inr ?_⟩
      show s'.aggregateNames = _
      rw [aggregateNames_of_getPolicy h2]; rfl

/-- What a run of `updateClusterNames` can do to the store, whatever the faults: nothing,
or store the policy with the new list. -/
theorem update_store_cases (f : Faults) (s : Store) (p : ClusterPropagationPolicy)
    (L L' : List String) (hp : s.getPolicy clusterPropagationPolicyName = some p)
    (hL : readClusterNames p = some L) :
    (updateClusterNames f s p L').store.clusters = s.clusters ∧
    ((updateClusterNames f s p L').store = s ∨
      (updateClusterNames f s p L').store.aggregateNames = some L') := by
  unfold updateClusterNames
  simp only []
  cases hup : Client.Update f s (setClusterNames p L') with
  | error e => exact ⟨rfl, Or.inl rfl⟩
  | ok s' =>
    obtain ⟨h1, h2⟩ := Update_ok hup
    refine ⟨h1, Or.inr ?_⟩
    show s'.aggregateNames = _
    rw [setClusterNames_name, getPolicy_name hp] at h2
    rw [aggregateNames_of_getPolicy h2, readClusterNames_set p L L' hL]

/-- What a run of `syncClusterPropagationPolicy` can do to the store, whatever the faults:
nothing, or store a fresh policy with the names of all Clusters, or append a name that is
not in the list, or erase the first occurrence of a name. -/
theorem sync_store_cases (f : Faults) (s : Store) (n : String) (t : eventType) :
    (syncClusterPropagationPolicy f s n t).store.clusters = s.clusters ∧
    ((syncClusterPropagationPolicy f s n t).store = s ∨
      (syncClusterPropagationPolicy f s n t).store.aggregateNames
        = some (s.clusters.map (fun c => c.Name)) ∨
      ∃ L, s.aggregateNames = some L ∧
        ((n ∉ L ∧ (syncClusterPropagationPolicy f s n t).store.aggregateNames = some (L ++ [n])) ∨
          (syncClusterPropagationPolicy f s n t).store.aggregateNames = some (L.erase n))) := by
  unfold syncClusterPropagationPolicy
  cases hg : Client.GetPolicy f s clusterPropagationPolicyName with
  | error e =>
    cases hnf : IsNotFound e with
    | false => simp only [hnf]; exact ⟨rfl, Or.inl rfl⟩
    | true =>
      simp only [hnf, if_true]
      obtain ⟨h1, h2⟩ := create_store_cases f s
      refine ⟨h1, ?_⟩
      rcases h2 with h2 | h2
      · exact Or.inl h2
      · exact Or.inr (Or.inl h2)
  | ok p =>
    have hp := GetPolicy_ok hg
    simp only []
    cases hL : readClusterNames p with
    | none => exact ⟨rfl, Or.inl rfl⟩
    | some L =>
      have hagg : s.aggregateNames = some L := by rw [aggregateNames_of_getPolicy hp, hL]
      cases t with
      | ensure =>
        simp only [scanLoop_lt_iff_mem]
        by_cases hn : n ∈ L
        · rw [if_pos hn]; exact ⟨rfl, Or.inl rfl⟩
        · rw [if_neg hn]
          obtain ⟨h1, h2⟩ := update_store_cases f s p L (L ++ [n]) hp hL
          refine ⟨h1, ?_⟩
          rcases h2 with h2 | h2
          · exact Or.inl h2
          · exact Or.inr (Or.inr ⟨L, hagg, Or.inl ⟨hn, h2⟩⟩)
      | remove =>
        simp only [take_drop_scanLoop]
        split
        · exact ⟨rfl, Or.inl rfl⟩
        · obtain ⟨h1, h2⟩ := update_store_cases f s p L (L.erase n) hp hL
          refine ⟨h1, ?_⟩
          rcases h2 with h2 | h2
          · exact Or.inl h2
          · exact Or.inr (Or.inr ⟨L, hagg, Or.inr h2⟩)

/-- The store a reconcile leaves is the one it found or the one its call of
`syncClusterPropagationPolicy` leaves. -/
theorem Reconcile_store_eq (f : Faults) (s : Store) (req : String) :
    (Reconcile f s req).store = s ∨
      ∃ n t, (Reconcile f s req).store = (syncClusterPropagationPolicy f s n t).store := by
  unfold Reconcile
  simp only []
  cases Client.GetCluster f s req with
  | error e =>
    cases hnf : IsNotFound e with
    | false => simp only [hnf]; exact Or.inl rfl
    | true => simp only [hnf, if_true]; exact Or.inr ⟨"", .remove, rfl⟩
  | ok c =>
    simp only []
    split
    · exact Or.inr ⟨c.Name, .remove, rfl⟩
    · exact Or.inr ⟨c.Name, .ensure, rfl⟩

/-- What a reconcile can do to the store, whatever the request and the faults. -/
theorem Reconcile_store_cases (f : Faults) (s : Store) (req : String) :
    (Reconcile f s req).store.clusters = s.clusters ∧
    ((Reconcile f s req).store = s ∨
      (Reconcile f s req).store.aggregateNames = some (s.clusters.map (fun c => c.Name)) ∨
      ∃ n L, s.aggregateNames = some L ∧
        ((n ∉ L ∧ (Reconcile f s req).store.aggregateNames = some (L ++ [n])) ∨
          (Reconcile f s req).store.aggregateNames = some (L.erase n))) := by
  rcases Reconcile_store_eq f s req with h | ⟨n, t, h⟩
  · rw [h]; exact ⟨rfl, Or.inl rfl⟩
  · rw [h]
    obtain ⟨h1, h2⟩ := sync_store_cases f s n t
    refine ⟨h1, ?_⟩
    rcases h2 with h2 | h2 | ⟨L, hL, h2⟩
    · exact Or.inl h2
    · exact Or.inr (Or.inl h2)
    · exact Or.inr (Or.inr ⟨n, L, hL, h2⟩)

theorem applyExternal_nodup (s : Store) (e : ExternalEvent)
    (h : (s.clusters.map (fun c => c.Name)).Nodup ∧
      ∀ L, s.aggregateNames = some L → L.Nodup) :
    ((s.applyExternal e).clusters.map (fun c => c.Name)).Nodup ∧
      ∀ L, (s.applyExternal e).aggregateNames = some L → L.Nodup := by
  obtain ⟨hc, hp⟩ := h
  cases e with
  | sourceCreated name =>
    cases hany : s.clusters.any (fun c => c.Name == name) with
    | true =>
      have hs : s.applyExternal (.sourceCreated name) = s := by
        simp only [Store.applyExternal, hany, if_true]
      rw [hs]; exact ⟨hc, hp⟩
    | false =>
      have hs : s.applyExternal (.sourceCreated name)
          = { s with clusters := s.clusters ++ [{ Name := name }] } := by
        simp only [Store.applyExternal, hany, Bool.false_eq_true, if_false]
      rw [hs]
      refine ⟨?_, hp⟩
      have hnot : name ∉ s.clusters.map (fun c => c.Name) := by
        intro hm
        obtain ⟨c, hcm, hcn⟩ := List.mem_map.1 hm
        have : s.clusters.any (fun c => c.Name == name) = true :=
          List.any_eq_true.2 ⟨c, hcm, by simpa using hcn⟩
        rw [hany] at this
        exact Bool.false_ne_true this
      rw [List.map_append, List.nodup_append]
      refine ⟨hc, by simp, ?_⟩
      intro a ha hb
      simp only [List.map_cons, List.map_nil, List.mem_singleton] at hb
      exact hnot (hb ▸ ha)
  | sourceDeletionMarked name timestamp =>
    refine ⟨?_, hp⟩
    show ((s.clusters.map _).map _).Nodup
    rw [List.map_map]
    have hfun : ((fun c : Cluster => c.Name) ∘ fun c : Cluster =>
        if c.Name == name then { c with DeletionTimestamp := some timestamp } else c)
        = fun c => c.Name := by
      funext c
      simp only [Function.comp]
      split <;> rfl
    rw [hfun]
    exact hc
  | sourceDeleted name =>
    refine ⟨?_, hp⟩
    exact hc.sublist (List.Sublist.map _ (List.filter_sublist _))
  | aggregateDeleted =>
    refine ⟨hc, ?_⟩
    intro L hL
    have hnone : (s.applyExternal .aggregateDeleted).getPolicy clusterPropagationPolicyName
        = none := by
      unfold Store.applyExternal Store.getPolicy
      rw [List.find?_eq_none]
      intro q hq
      have := (List.mem_filter.1 hq).2
      simpa using this
    unfold Store.aggregateNames at hL
    rw [hnone] at hL
    cases hL

theorem Reconcile_nodup (f : Faults) (s : Store) (req : String)
    (h : (s.clusters.map (fun c => c.Name)).Nodup ∧
      ∀ L, s.aggregateNames = some L → L.Nodup) :
    ((Reconcile f s req).store.clusters.map (fun c => c.Name)).Nodup ∧
      ∀ L, (Reconcile f s req).store.aggregateNames = some L → L.Nodup := by
  obtain ⟨hc, hp⟩ := h
  obtain ⟨h1, h2⟩ := Reconcile_store_cases f s req
  refine ⟨by rw [h1]; exact hc, ?_⟩
  intro L hL
  rcases h2 with h2 | h2 | ⟨n, L0, hL0, h2 | h2⟩
  · rw [h2] at hL; exact hp L hL
  · rw [h2] at hL; cases hL; exact hc
  · rw [h2.2] at hL; cases hL
    have hnd := hp L0 hL0
    rw [List.nodup_append]
    refine ⟨hnd, by simp, ?_⟩
    intro a ha hb
    simp only [List.mem_singleton] at hb
    exact h2.1 (hb ▸ ha)
  · rw [h2] at hL; cases hL
    exact (hp L0 hL0).erase n

theorem runActions_nodup (actions : List Action) (s : Store)
    (h : (s.clusters.map (fun c => c.Name)).Nodup ∧
      ∀ L, s.aggregateNames = some L → L.Nodup) :
    ((s.runActions actions).clusters.map (fun c => c.Name)).Nodup ∧
      ∀ L, (s.runActions actions).aggregateNames = some L → L.Nodup := by
  induction actions generalizing s with
  | nil => exact h
  | cons a rest ih =>
    show (((s.act a).runActions rest).clusters.map _).Nodup ∧ _
    apply ih
    cases a with
    | external e => exact applyExternal_nodup s e h
    | reconcile f req => exact Reconcile_nodup f s req h

/-- C7: start from a store with no policy `serviceexport-policy` and with Clusters of
pairwise different names, and take any sequence of steps, each an external event (a Cluster
created, marked for deletion or deleted, the policy deleted) or a reconcile for any request
under any faults of the store.  In the store reached, the membership list of the policy,
when there is one, holds no name twice. -/
theorem C7_no_duplicate_entries (s : Store) (actions : List Action)
    (hpolicy : s.getPolicy clusterPropagationPolicyName = none)
    (hunique : (s.clusters.map (fun c => c.Name)).Nodup)
    (L : List String) (hL : (s.runActions actions).aggregateNames = some L) :
    L.Nodup := by
  refine (runActions_nodup actions s ⟨hunique, ?_⟩).2 L hL
  intro L' hL'
  unfold Store.aggregateNames at hL'
  rw [hpolicy] at hL'
  cases hL'

/-- C7 on a run from `storeLiveAndMarked`: bootstrap, a Cluster joins, the marked Cluster is
reconciled, the policy is deleted and re-created. -/
theorem C7_no_duplicate_entries_witness :
    (storeLiveAndMarked.runActions
        [.reconcile noFaults "member1", .external (.sourceCreated "member3"),
          .reconcile noFaults "member3", .reconcile noFaults "member2",
          .external .aggregateDeleted, .reconcile noFaults "no-exist-cluster",
          .reconcile noFaults "member3"]).aggregateNames
        = some ["member1", "member2", "member3"] ∧
      ["member1", "member2", "member3"].Nodup :=
  ⟨by decide,
    C7_no_duplicate_entries storeLiveAndMarked
      [.reconcile noFaults "member1", .external (.sourceCreated "member3"),
        .reconcile noFaults "member3", .reconcile noFaults "member2",
        .external .aggregateDeleted, .reconcile noFaults "no-exist-cluster",
        .reconcile noFaults "member3"]
      (by decide) (by decide) ["member1", "member2", "member3"] (by decide)⟩

/-! ## Claims on the event filters -/

/-- C13: `clusterFilter` answers true to every create event and every delete event and
false to every generic event; to an update event it answers true exactly when one of the
old and the new object has a zero deletion timestamp and the other has not.  So an update
that leaves the deletion timestamp as it is gets false, and an update from no deletion
timestamp to a non-zero one gets true. -/
theorem C13_cluster_filter :
    (∀ e, clusterFilter.CreateFunc e = true) ∧
      (∀ e, clusterFilter.DeleteFunc e = true) ∧
      (∀ e, clusterFilter.GenericFunc e = false) ∧
      (∀ e, clusterFilter.UpdateFunc e = true ↔
        ((IsZero e.ObjectOld.DeletionTimestamp = true ∧
            IsZero e.ObjectNew.DeletionTimestamp = false) ∨
          (IsZero e.ObjectOld.DeletionTimestamp = false ∧
            IsZero e.ObjectNew.DeletionTimestamp = true))) ∧
      (∀ e, e.ObjectOld.DeletionTimestamp = e.ObjectNew.DeletionTimestamp →
        clusterFilter.UpdateFunc e = false) ∧
      (∀ e t, e.ObjectOld.DeletionTimestamp = none →
        e.ObjectNew.DeletionTimestamp = some (t + 1) →
        clusterFilter.UpdateFunc e = true) := by
  refine ⟨fun _ => rfl, fun _ => rfl, fun _ => rfl, ?_, ?_, ?_⟩
  · intro e
    simp only [clusterFilter]
    cases IsZero e.ObjectOld.DeletionTimestamp <;>
      cases IsZero e.ObjectNew.DeletionTimestamp <;> simp
  · intro e h
    simp [clusterFilter, h]
  · intro e t h1 h2
    simp [clusterFilter, h1, h2, IsZero]

/-- C13 on two updates of a Cluster `member1`: one that changes the name only, one that
sets the deletion timestamp. -/
theorem C13_cluster_filter_witness :
    clusterFilter.UpdateFunc
        { ObjectOld := { Name := "member1" }, ObjectNew := { Name := "member1-renamed" } }
        = false ∧
      clusterFilter.UpdateFunc
        { ObjectOld := { Name := "member1" }
          ObjectNew := { Name := "member1", DeletionTimestamp := some (6 + 1) } } = true :=
  ⟨C13_cluster_filter.2.2.2.2.1 _ rfl, C13_cluster_filter.2.2.2.2.2 _ 6 rfl rfl⟩

/-- C14: on the watch of ClusterPropagationPolicies, where an event must pass
`clusterFilter` and `cppFilter`, no create, update or generic event passes, a delete event
passes exactly when the object is named `serviceexport-policy`, and so does the deletion of
the policy the controller creates; `cppHandlerFn` maps every object to one request, named
`no-exist-cluster`. -/
theorem C14_aggregate_events :
    (∀ e, passes cppPredicates (.Create e) = false) ∧
      (∀ e, passes cppPredicates (.Update e) = false) ∧
      (∀ e, passes cppPredicates (.Generic e) = false) ∧
      (∀ e, passes cppPredicates (.Delete e)
        = (e.Object.Name == clusterPropagationPolicyName)) ∧
      (∀ clusters, passes cppPredicates
        (.Delete { Object := (clusterPropagationPolicy clusters).toObjectMeta }) = true) ∧
      (∀ (α : Type) (object : α), cppHandlerFn object = ["no-exist-cluster"]) := by
  refine ⟨?_, ?_, ?_, ?_, ?_, fun _ _ => rfl⟩
  · intro e; simp [passes, cppPredicates, Funcs.apply, cppFilter]
  · intro e; simp [passes, cppPredicates, Funcs.apply, cppFilter]
  · intro e; simp [passes, cppPredicates, Funcs.apply, cppFilter, clusterFilter]
  · intro e; simp [passes, cppPredicates, Funcs.apply, cppFilter, clusterFilter]
  · intro clusters
    simp [passes, cppPredicates, Funcs.apply, cppFilter, clusterFilter,
      clusterPropagationPolicy]

/-! ## Error propagation and the effects of a reconcile -/

theorem abortError_eq_some (f : Faults) (s : Store) (c : Call) (e : StatusError) :
    Client.abortError f s c = some e ↔
      Client.response f s c = some e ∧ ¬ (c.isGet = true ∧ IsNotFound e = true) := by
  unfold Client.abortError
  cases h : Client.response f s c with
  | none => simp
  | some e' =>
    by_cases hc : (c.isGet && IsNotFound e') = true
    · simp only [hc, if_true, Option.some.injEq]
      constructor
      · intro h'; cases h'
      · rintro ⟨rfl, h2⟩
        exact absurd (by simpa using hc) h2
    · simp only [hc, Bool.false_eq_true, if_false, Option.some.injEq]
      constructor
      · rintro rfl
        exact ⟨rfl, by simpa using hc⟩
      · rintro ⟨rfl, -⟩; rfl

/-- The runs of `createClusterPropagationPolicy`: the errors that abort calls are the
error returned, and no call but the last is aborted. -/
theorem create_errors (f : Faults) (s : Store) :
    (createClusterPropagationPolicy f s).calls.filterMap (Client.abortError f s)
        = (createClusterPropagationPolicy f s).outcome.errors ∧
      ∀ c ∈ (createClusterPropagationPolicy f s).calls.dropLast,
        Client.abortError f s c = none := by
  unfold createClusterPropagationPolicy
  cases hl : Client.List f s with
  | error e =>
    simp [Client.abortError, Client.response, errorOf, hl, Call.isGet, Outcome.errors]
  | ok clusters =>
    simp only []
    cases hc : Client.Create f s (clusterPropagationPolicy (clusters.map fun c => c.Name)) with
    | error e =>
      simp [Client.abortError, Client.response, errorOf, hl, hc, Call.isGet, Outcome.errors]
    | ok s' =>
      simp [Client.abortError, Client.response, errorOf, hl, hc, Call.isGet, Outcome.errors]

theorem update_errors (f : Faults) (s : Store) (p : ClusterPropagationPolicy)
    (L : List String) :
    (updateClusterNames f s p L).calls.filterMap (Client.abortError f s)
        = (updateClusterNames f s p L).outcome.errors ∧
      ∀ c ∈ (updateClusterNames f s p L).calls.dropLast,
        Client.abortError f s c = none := by
  unfold updateClusterNames
  simp only []
  cases hu : Client.Update f s (setClusterNames p L) with
  | error e =>
    simp [Client.abortError, Client.response, errorOf, hu, Call.isGet, Outcome.errors]
  | ok s' =>
    simp [Client.abortError, Client.response, errorOf, hu, Call.isGet, Outcome.errors]

/-- A call that is not aborted in front of a run in which the errors propagate. -/
theorem after_errors (f : Faults) (s : Store) (c : Call) (r : Run)
    (hc : Client.abortError f s c = none)
    (hr : r.calls.filterMap (Client.abortError f s) = r.outcome.errors ∧
      ∀ c' ∈ r.calls.dropLast, Client.abortError f s c' = none) :
    (Run.after c r).calls.filterMap (Client.abortError f s) = (Run.after c r).outcome.errors ∧
      ∀ c' ∈ (Run.after c r).calls.dropLast, Client.abortError f s c' = none := by
  obtain ⟨h1, h2⟩ := hr
  refine ⟨by simp [Run.after, List.filterMap_cons, hc, h1], ?_⟩
  intro c' hc'
  simp only [Run.after] at hc'
  cases hcalls : r.calls with
  | nil => simp [hcalls] at hc'
  | cons c1 rest =>
    rw [hcalls, List.dropLast_cons₂] at hc'
    rcases List.mem_cons.1 hc' with rfl | h
    · exact hc
    · exact h2 c' (by rw [hcalls]; exact h)

/-- A single call that is aborted, or a single call that goes through without a write. -/
theorem single_errors (f : Faults) (s s' : Store) (c : Call) (o : Outcome)
    (h : Client.abortError f s c = none ∧ o.errors = [] ∨
      ∃ e, Client.abortError f s c = some e ∧ o = .failure e) :
    (Run.after c ⟨s', [], o⟩).calls.filterMap (Client.abortError f s)
        = (Run.after c ⟨s', [], o⟩).outcome.errors ∧
      ∀ c' ∈ (Run.after c ⟨s', [], o⟩).calls.dropLast, Client.abortError f s c' = none := by
  rcases h with ⟨h1, h2⟩ | ⟨e, h1, rfl⟩
  · simp [Run.after, List.filterMap_cons, h1, h2]
  · simp [Run.after, List.filterMap_cons, h1, Outcome.errors]

theorem abortError_GetPolicy (f : Faults) (s : Store) (name : String) :
    Client.abortError f s (.GetPolicy name) =
      match Client.GetPolicy f s name with
      | .ok _ => none
      | .error e => if IsNotFound e then none else some e := by
  cases h : Client.GetPolicy f s name <;>
    simp [Client.abortError, Client.response, errorOf, Call.isGet, h]

theorem abortError_GetCluster (f : Faults) (s : Store) (name : String) :
    Client.abortError f s (.GetCluster name) =
      match Client.GetCluster f s name with
      | .ok _ => none
      | .error e => if IsNotFound e then none else some e := by
  cases h : Client.GetCluster f s name <;>
    simp [Client.abortError, Client.response, errorOf, Call.isGet, h]

theorem sync_errors (f : Faults) (s : Store) (n : String) (t : eventType) :
    (syncClusterPropagationPolicy f s n t).calls.filterMap (Client.abortError f s)
        = (syncClusterPropagationPolicy f s n t).outcome.errors ∧
      ∀ c ∈ (syncClusterPropagationPolicy f s n t).calls.dropLast,
        Client.abortError f s c = none := by
  have hab := abortError_GetPolicy f s clusterPropagationPolicyName
  unfold syncClusterPropagationPolicy
  cases hg : Client.GetPolicy f s clusterPropagationPolicyName with
  | error e =>
    rw [hg] at hab
    cases hnf : IsNotFound e with
    | false =>
      simp only [hnf, Bool.false_eq_true, if_false] at hab ⊢
      exact single_errors f s s _ _ (Or.inr ⟨e, hab, rfl⟩)
    | true =>
      simp only [hnf, if_true] at hab ⊢
      exact after_errors f s _ _ hab (create_errors f s)
  | ok p =>
    rw [hg] at hab
    simp only [] at hab ⊢
    cases hL : readClusterNames p with
    | none => exact single_errors f s s _ _ (Or.inl ⟨hab, rfl⟩)
    | some L =>
      simp only []
      cases t with
      | ensure =>
        simp only []
        split
        · exact single_errors f s s _ _ (Or.inl ⟨hab, rfl⟩)
        · exact after_errors f s _ _ hab (update_errors f s p _)
      | remove =>
        simp only []
        split
        · exact single_errors f s s _ _ (Or.inl ⟨hab, rfl⟩)
        · exact after_errors f s _ _ hab (update_errors f s p _)

theorem Reconcile_errors (f : Faults) (s : Store) (req : String) :
    (Reconcile f s req).calls.filterMap (Client.abortError f s)
        = (Reconcile f s req).outcome.errors ∧
      ∀ c ∈ (Reconcile f s req).calls.dropLast, Client.abortError f s c = none := by
  have hab := abortError_GetCluster f s req
  unfold Reconcile
  simp only []
  cases hg : Client.GetCluster f s req with
  | error e =>
    rw [hg] at hab
    cases hnf : IsNotFound e with
    | false =>
      simp only [hnf, Bool.false_eq_true, if_false] at hab ⊢
      exact single_errors f s s _ _ (Or.inr ⟨e, hab, rfl⟩)
    | true =>
      simp only [hnf, if_true] at hab ⊢
      exact after_errors f s _ _ hab (sync_errors f s _ _)
  | ok c =>
    rw [hg] at hab
    simp only [] at hab ⊢
    split
    · exact after_errors f s _ _ hab (sync_errors f s _ _)
    · exact after_errors f s _ _ hab (sync_errors f s _ _)

/-- C12: a reconcile returns the error `e` exactly when one of the calls it issued was
answered with `e` and `e` is not a not-found error on a `Get`; every call before the last
one was answered without error or with a not-found error on a `Get`, so the call that
fails is the last one issued.  A not-found error on the `Get` of the Cluster selects the
remove branch, one on the `Get` of the policy selects the creation of the policy. -/
theorem C12_error_propagation (f : Faults) (s : Store) (req : String) :
    (∀ e, (Reconcile f s req).outcome = .failure e ↔
        ∃ c ∈ (Reconcile f s req).calls, Client.response f s c = some e ∧
          ¬ (c.isGet = true ∧ IsNotFound e = true)) ∧
      (∀ c ∈ (Reconcile f s req).calls.dropLast, ∀ e, Client.response f s c = some e →
        c.isGet = true ∧ IsNotFound e = true) ∧
      (∀ e, Client.GetCluster f s req = .error e → IsNotFound e = true →
        Reconcile f s req =
          Run.after (.GetCluster req) (syncClusterPropagationPolicy f s "" .remove)) ∧
      (∀ n t e, Client.GetPolicy f s clusterPropagationPolicyName = .error e →
        IsNotFound e = true →
        syncClusterPropagationPolicy f s n t =
          Run.after (.GetPolicy clusterPropagationPolicyName)
            (createClusterPropagationPolicy f s)) := by
  obtain ⟨h1, h2⟩ := Reconcile_errors f s req
  refine ⟨?_, ?_, ?_, ?_⟩
  · intro e
    constructor
    · intro ho
      have hmem : e ∈ (Reconcile f s req).calls.filterMap (Client.abortError f s) := by
        rw [h1, ho]; simp [Outcome.errors]
      obtain ⟨c, hc, hce⟩ := List.mem_filterMap.1 hmem
      exact ⟨c, hc, (abortError_eq_some f s c e).1 hce⟩
    · rintro ⟨c, hc, hce⟩
      have hmem : e ∈ (Reconcile f s req).calls.filterMap (Client.abortError f s) :=
        List.mem_filterMap.2 ⟨c, hc, (abortError_eq_some f s c e).2 hce⟩
      rw [h1] at hmem
      cases ho : (Reconcile f s req).outcome with
      | success => rw [ho] at hmem; simp [Outcome.errors] at hmem
      | nilDereference => rw [ho] at hmem; simp [Outcome.errors] at hmem
      | failure e' =>
        rw [ho] at hmem
        simp only [Outcome.errors, List.mem_singleton] at hmem
        rw [hmem]
  · intro c hc e he
    by_contra hnot
    have := (abortError_eq_some f s c e).2 ⟨he, hnot⟩
    rw [h2 c hc] at this
    cases this
  · intro e he hnf
    unfold Reconcile
    simp only [he, hnf, if_true]
  · intro n t e he hnf
    unfold syncClusterPropagationPolicy
    simp only [he, hnf, if_true]

/-- C12 on `storeJoining` with a conflict on `Update`: the reconcile for `member2` returns
the conflict. -/
theorem C12_error_propagation_witness :
    (Reconcile conflictOnUpdate storeJoining "member2").outcome = .failure .Conflict ∧
      (Reconcile conflictOnUpdate storeJoining "member2").calls =
        [.GetCluster "member2", .GetPolicy clusterPropagationPolicyName,
          .Update (clusterPropagationPolicy ["member1", "member2"])] :=
  ⟨((C12_error_propagation conflictOnUpdate storeJoining "member2").1 .Conflict).2
      ⟨.Update (clusterPropagationPolicy ["member1", "member2"]), by decide, by decide,
        by decide⟩,
    by decide⟩

theorem List_ok {f : Faults} {s : Store} {clusters : List Cluster}
    (h : Client.List f s = .ok clusters) : clusters = s.clusters := by
  unfold Client.List at h
  cases hf : f .ListClusters with
  | some e => simp [hf] at h
  | none => simp only [hf, Except.ok.injEq] at h; exact h.symm

/-- The calls of a run of `syncClusterPropagationPolicy`. -/
theorem sync_calls_cases (f : Faults) (s : Store) (n : String) (t : eventType) :
    (syncClusterPropagationPolicy f s n t).calls = [.GetPolicy clusterPropagationPolicyName] ∨
      (syncClusterPropagationPolicy f s n t).calls
        = [.GetPolicy clusterPropagationPolicyName, .ListClusters] ∨
      (syncClusterPropagationPolicy f s n t).calls
        = [.GetPolicy clusterPropagationPolicyName, .ListClusters,
            .Create (clusterPropagationPolicy (s.clusters.map fun c => c.Name))] ∨
      ∃ p L, s.getPolicy clusterPropagationPolicyName = some p ∧
        (syncClusterPropagationPolicy f s n t).calls
          = [.GetPolicy clusterPropagationPolicyName, .Update (setClusterNames p L)] := by
  unfold syncClusterPropagationPolicy
  cases hg : Client.GetPolicy f s clusterPropagationPolicyName with
  | error e =>
    cases hnf : IsNotFound e with
    | false => simp only [hnf]; exact Or.inl rfl
    | true =>
      simp only [hnf, if_true]
      unfold createClusterPropagationPolicy
      cases hl : Client.List f s with
      | error e' => exact Or.inr (Or.inl rfl)
      | ok clusters =>
        rw [List_ok hl]
        simp only []
        cases Client.Create f s (clusterPropagationPolicy (s.clusters.map fun c => c.Name)) with
        | error e' => exact Or.inr (Or.inr (Or.inl rfl))
        | ok s' => exact Or.inr (Or.inr (Or.inl rfl))
  | ok p =>
    have hp := GetPolicy_ok hg
    simp only []
    cases hL : readClusterNames p with
    | none => exact Or.inl rfl
    | some L =>
      simp only []
      cases t with
      | ensure =>
        simp only []
        split
        · exact Or.inl rfl
        · exact Or.inr (Or.inr (Or.inr ⟨p, L ++ [n], hp, by simp [Run.after, update_calls]⟩))
      | remove =>
        simp only []
        split
        · exact Or.inl rfl
        · exact Or.inr (Or.inr (Or.inr ⟨p, L.take (scanLoop n L 0) ++ L.drop (scanLoop n L 0 + 1),
            hp, by simp [Run.after, update_calls]⟩))

/-- The calls of a reconcile: the `Get` of the Cluster, then those of
`syncClusterPropagationPolicy` if it is run. -/
theorem Reconcile_calls_eq (f : Faults) (s : Store) (req : String) :
    (Reconcile f s req).calls = [.GetCluster req] ∨
      ∃ n t, (Reconcile f s req).calls
        = .GetCluster req :: (syncClusterPropagationPolicy f s n t).calls := by
  unfold Reconcile
  simp only []
  cases Client.GetCluster f s req with
  | error e =>
    cases hnf : IsNotFound e with
    | false => simp only [hnf]; exact Or.inl rfl
    | true => simp only [hnf, if_true]; exact Or.inr ⟨"", .remove, rfl⟩
  | ok c =>
    simp only []
    split
    · exact Or.inr ⟨c.Name, .remove, rfl⟩
    · exact Or.inr ⟨c.Name, .ensure, rfl⟩

/-- The calls of a reconcile, in full. -/
theorem Reconcile_calls_cases (f : Faults) (s : Store) (req : String) :
    (Reconcile f s req).calls = [.GetCluster req] ∨
      (Reconcile f s req).calls = [.GetCluster req, .GetPolicy clusterPropagationPolicyName] ∨
      (Reconcile f s req).calls
        = [.GetCluster req, .GetPolicy clusterPropagationPolicyName, .ListClusters] ∨
      (Reconcile f s req).calls
        = [.GetCluster req, .GetPolicy clusterPropagationPolicyName, .ListClusters,
            .Create (clusterPropagationPolicy (s.clusters.map fun c => c.Name))] ∨
      ∃ p L, s.getPolicy clusterPropagationPolicyName = some p ∧
        (Reconcile f s req).calls
          = [.GetCluster req, .GetPolicy clusterPropagationPolicyName,
              .Update (setClusterNames p L)] := by
  rcases Reconcile_calls_eq f s req with h | ⟨n, t, h⟩
  · exact Or.inl h
  · rw [h]
    rcases sync_calls_cases f s n t with h' | h' | h' | ⟨p, L, hp, h'⟩
    · exact Or.inr (Or.inl (by rw [h']))
    · exact Or.inr (Or.inr (Or.inl (by rw [h'])))
    · exact Or.inr (Or.inr (Or.inr (Or.inl (by rw [h']))))
    · exact Or.inr (Or.inr (Or.inr (Or.inr ⟨p, L, hp, by rw [h']⟩)))

/-! ## The scenario, the descriptor and the writes -/

/-- C15, evaluated on the code: from live Clusters `A` and `B` and no policy, the
reconcile for `A` creates the policy with list `A, B`; after `C` is created the reconcile
for `C` makes it `A, B, C`; after `B` gets a deletion timestamp the reconcile for `B` makes
it `A, C`; after the policy is deleted the reconcile for `no-exist-cluster` creates it
again with list `A, B, C`, not `A, C`: `B` is still in the store and is listed. -/
theorem C15_scenario_recreates_with_marked :
    (storeAB.runActions [.reconcile noFaults "A"]).aggregateNames = some ["A", "B"] ∧
      (storeAB.runActions [.reconcile noFaults "A", .external (.sourceCreated "C"),
          .reconcile noFaults "C"]).aggregateNames = some ["A", "B", "C"] ∧
      (storeAB.runActions [.reconcile noFaults "A", .external (.sourceCreated "C"),
          .reconcile noFaults "C", .external (.sourceDeletionMarked "B" 7),
          .reconcile noFaults "B"]).aggregateNames = some ["A", "C"] ∧
      (storeAB.runActions [.reconcile noFaults "A", .external (.sourceCreated "C"),
          .reconcile noFaults "C", .external (.sourceDeletionMarked "B" 7),
          .reconcile noFaults "B", .external .aggregateDeleted,
          .reconcile noFaults "no-exist-cluster"]).aggregateNames
        = some ["A", "B", "C"] := by
  decide

/-- C18: a policy that a reconcile creates is the one of `clusterPropagationPolicy`: its
name is `serviceexport-policy` and it has the one resource selector for the
CustomResourceDefinition `serviceexports.multicluster.x-k8s.io`.  A policy that a
reconcile updates is the policy read from the store with a new membership list: name,
deletion timestamp, resource selectors are those of the policy read. -/
theorem C18_descriptor_fixed (f : Faults) (s : Store) (req : String) :
    (∀ p, Call.Create p ∈ (Reconcile f s req).calls →
        (∃ clusters, p = clusterPropagationPolicy clusters) ∧
        p.Name = "serviceexport-policy" ∧
        p.Spec.ResourceSelectors =
          [{ APIVersion := "apiextensions.k8s.io/v1", Kind := "CustomResourceDefinition",
             Name := "serviceexports.multicluster.x-k8s.io" }]) ∧
      (∀ p', Call.Update p' ∈ (Reconcile f s req).calls →
        ∃ p L, s.getPolicy clusterPropagationPolicyName = some p ∧
          p' = setClusterNames p L ∧
          p'.toObjectMeta = p.toObjectMeta ∧
          p'.Spec.ResourceSelectors = p.Spec.ResourceSelectors) := by
  constructor
  · intro p hp
    rcases Reconcile_calls_cases f s req with h | h | h | h | ⟨q, L, -, h⟩ <;>
      rw [h] at hp <;> simp at hp
    subst hp
    exact ⟨⟨_, rfl⟩, rfl, rfl⟩
  · intro p' hp'
    rcases Reconcile_calls_cases f s req with h | h | h | h | ⟨q, L, hq, h⟩ <;>
      rw [h] at hp' <;> simp at hp'
    subst hp'
    exact ⟨q, L, hq, rfl, rfl, rfl⟩

/-- C18 on the creation from `storeLiveAndMarked` and on the update of `storeJoining`. -/
theorem C18_descriptor_fixed_witness :
    (clusterPropagationPolicy ["member1", "member2"]).Spec.ResourceSelectors =
        [{ APIVersion := "apiextensions.k8s.io/v1", Kind := "CustomResourceDefinition",
           Name := "serviceexports.multicluster.x-k8s.io" }] ∧
      ∃ p L, storeJoining.getPolicy clusterPropagationPolicyName = some p ∧
        clusterPropagationPolicy ["member1", "member2"] = setClusterNames p L ∧
        (clusterPropagationPolicy ["member1", "member2"]).toObjectMeta = p.toObjectMeta ∧
        (clusterPropagationPolicy ["member1", "member2"]).Spec.ResourceSelectors
          = p.Spec.ResourceSelectors :=
  ⟨((C18_descriptor_fixed noFaults storeLiveAndMarked "member1").1
      (clusterPropagationPolicy ["member1", "member2"]) (by decide)).2.2,
    (C18_descriptor_fixed noFaults storeJoining "member2").2
      (clusterPropagationPolicy ["member1", "member2"]) (by decide)⟩

/-- C19: whatever the store, the request and the faults, a reconcile leaves the Clusters
of the store as they are, issues at most one write, and a write it issues is a create or an
update of a policy named `serviceexport-policy`; the client is never asked to delete. -/
theorem C19_single_write (f : Faults) (s : Store) (req : String) :
    (Reconcile f s req).store.clusters = s.clusters ∧
      ((Reconcile f s req).calls.filter Call.isWrite).length ≤ 1 ∧
      ∀ c ∈ (Reconcile f s req).calls, c.isWrite = true →
        ∃ p, (c = .Create p ∨ c = .Update p) ∧ p.Name = clusterPropagationPolicyName := by
  refine ⟨(Reconcile_store_cases f s req).1, ?_, ?_⟩
  · rcases Reconcile_calls_cases f s req with h | h | h | h | ⟨q, L, -, h⟩ <;>
      rw [h] <;> simp [List.filter, Call.isWrite]
  · intro c hc hw
    rcases Reconcile_calls_cases f s req with h | h | h | h | ⟨q, L, hq, h⟩ <;>
      rw [h] at hc <;>
      simp only [List.mem_cons, List.mem_singleton, List.not_mem_nil, or_false] at hc
    · subst hc; simp [Call.isWrite] at hw
    · rcases hc with rfl | rfl <;> simp [Call.isWrite] at hw
    · rcases hc with rfl | rfl | rfl <;> simp [Call.isWrite] at hw
    · rcases hc with rfl | rfl | rfl | rfl
      · simp [Call.isWrite] at hw
      · simp [Call.isWrite] at hw
      · simp [Call.isWrite] at hw
      · exact ⟨_, Or.inl rfl, rfl⟩
    · rcases hc with rfl | rfl | rfl
      · simp [Call.isWrite] at hw
      · simp [Call.isWrite] at hw
      · exact ⟨_, Or.inr rfl, by rw [setClusterNames_name, getPolicy_name hq]⟩

/-- C19 on `storeLeaving`: the reconcile for `member2` issues one write, an update of
`serviceexport-policy`, and the Clusters are as before. -/
theorem C19_single_write_witness :
    (Reconcile noFaults storeLeaving "member2").store.clusters = storeLeaving.clusters ∧
      ((Reconcile noFaults storeLeaving "member2").calls.filter Call.isWrite).length ≤ 1 ∧
      ∃ p, (Call.Update (clusterPropagationPolicy ["member1", "member3"]) = .Create p ∨
          Call.Update (clusterPropagationPolicy ["member1", "member3"]) = .Update p) ∧
        p.Name = clusterPropagationPolicyName :=
  ⟨(C19_single_write noFaults storeLeaving "member2").1,
    (C19_single_write noFaults storeLeaving "member2").2.1,
    (C19_single_write noFaults storeLeaving "member2").2.2
      (.Update (clusterPropagationPolicy ["member1", "member3"])) (by decide) rfl⟩

/-- C20: when the `Get` of the Cluster `id` finds nothing, the name given to
`syncClusterPropagationPolicy` is the name of the Cluster object that was never filled in,
the empty string, and not `id`.  So when no Cluster `id` exists and the policy exists with
a membership list without the empty string, the reconcile for `id` reads the Cluster and
the policy, writes nothing, returns success and leaves the store, the list included, as it
was, whether `id` is in the list or not. -/
theorem C20_not_found_uses_empty_name (f : Faults) (s : Store) (id : String)
    (p : ClusterPropagationPolicy) (L : List String)
    (hget : f .GetCluster = none ∧ f .GetPolicy = none)
    (hc : s.getCluster id = none)
    (hp : s.getPolicy clusterPropagationPolicyName = some p)
    (hL : readClusterNames p = some L) (hempty : "" ∉ L) :
    Reconcile f s id =
        Run.after (.GetCluster id)
          (syncClusterPropagationPolicy f s ({} : Cluster).Name .remove) ∧
      ({} : Cluster).Name = "" ∧
      Reconcile f s id =
        ⟨s, [.GetCluster id, .GetPolicy clusterPropagationPolicyName], .success⟩ ∧
      (Reconcile f s id).store.aggregateNames = some L := by
  have h1 := Reconcile_missing f s id hget.1 hc
  have h2 : Reconcile f s id =
      ⟨s, [.GetCluster id, .GetPolicy clusterPropagationPolicyName], .success⟩ := by
    rw [h1, sync_remove f s "" p L hget.2 hp hL, if_neg hempty]; rfl
  refine ⟨h1, rfl, h2, ?_⟩
  rw [h2, aggregateNames_of_getPolicy hp, hL]

/-- C20 on `storeOrphanEntry`: `member1` is listed, no Cluster `member1` exists, and the
reconcile for `member1` changes nothing. -/
theorem C20_not_found_uses_empty_name_witness :
    Reconcile noFaults storeOrphanEntry "member1" =
        Run.after (.GetCluster "member1")
          (syncClusterPropagationPolicy noFaults storeOrphanEntry ({} : Cluster).Name .remove) ∧
      ({} : Cluster).Name = "" ∧
      Reconcile noFaults storeOrphanEntry "member1" =
        ⟨storeOrphanEntry, [.GetCluster "member1", .GetPolicy clusterPropagationPolicyName],
          .success⟩ ∧
      (Reconcile noFaults storeOrphanEntry "member1").store.aggregateNames
        = some ["member1"] :=
  C20_not_found_uses_empty_name noFaults storeOrphanEntry "member1"
    (clusterPropagationPolicy ["member1"]) ["member1"] ⟨rfl, rfl⟩ (by decide) (by decide)
    (by decide) (by decide)

end crdsynchronizer

namespace indexes

/-! ## The index builder -/

theorem foldl_paths (paths : List HTTPIngressPath) (acc : List IngressBackend) :
    paths.foldl (fun backends path => backends ++ [path.Backend]) acc
      = acc ++ paths.map (fun path => path.Backend) := by
  induction paths generalizing acc with
  | nil => simp
  | cons p rest ih => simp [ih]

theorem mem_foldl_rules (rules : List IngressRule) (acc : List IngressBackend)
    (b : IngressBackend) :
    b ∈ rules.foldl (fun backends rule =>
        match rule.HTTP with
        | none => backends
        | some http =>
          http.Paths.foldl (fun backends path => backends ++ [path.Backend]) backends) acc
      ↔ b ∈ acc ∨ ∃ rule ∈ rules, ∃ http, rule.HTTP = some http ∧
          ∃ path ∈ http.Paths, path.Backend = b := by
  induction rules generalizing acc with
  | nil => simp
  | cons r rest ih =>
    rw [List.foldl_cons, ih]
    cases hr : r.HTTP with
    | none =>
      simp only [List.mem_cons, exists_eq_or_imp, hr]
      simp
    | some http =>
      simp only [List.mem_cons, exists_eq_or_imp, hr, foldl_paths, List.mem_append,
        List.mem_map, Option.some.injEq, exists_eq_left']
      rw [or_assoc]

theorem mem_collectBackends (mci : MultiClusterIngress) (b : IngressBackend) :
    b ∈ collectBackends mci ↔
      mci.Spec.DefaultBackend = some b ∨
      ∃ rule ∈ mci.Spec.Rules, ∃ http, rule.HTTP = some http ∧
        ∃ path ∈ http.Paths, path.Backend = b := by
  unfold collectBackends
  simp only [mem_foldl_rules]
  cases hd : mci.Spec.DefaultBackend with
  | none => simp
  | some d => simp [eq_comm]

theorem mem_Insert (s : StringSet) (item n : String) :
    n ∈ (s.Insert item).keys ↔ n ∈ s.keys ∨ n = item := by
  unfold StringSet.Insert
  split
  · constructor
    · exact Or.inl
    · rintro (h | rfl)
      · exact h
      · assumption
  · simp

theorem nodup_Insert (s : StringSet) (item : String) (h : s.keys.Nodup) :
    (s.Insert item).keys.Nodup := by
  unfold StringSet.Insert
  split
  · exact h
  · rename_i hn
    rw [List.nodup_append]
    refine ⟨h, by simp, ?_⟩
    intro a ha hb
    simp only [List.mem_singleton] at hb
    exact hn (hb ▸ ha)

theorem insertServiceNames_some (backends : List IngressBackend) (s : StringSet)
    (h : ∀ b ∈ backends, b.Service ≠ none) :
    ∃ s', insertServiceNames backends s = some s' ∧
      (s.keys.Nodup → s'.keys.Nodup) ∧
      ∀ n, n ∈ s'.keys ↔ n ∈ s.keys ∨
        ∃ b ∈ backends, ∃ svc, b.Service = some svc ∧ svc.Name = n := by
  induction backends generalizing s with
  | nil => exact ⟨s, rfl, id, by simp⟩
  | cons b rest ih =>
    cases hb : b.Service with
    | none => exact absurd hb (h b (List.mem_cons_self _ _))
    | some svc =>
      obtain ⟨s', h1, h2, h3⟩ := ih (s.Insert svc.Name)
        (fun b' hb' => h b' (List.mem_cons_of_mem _ hb'))
      refine ⟨s', by simp only [insertServiceNames, hb, h1],
        fun hnd => h2 (nodup_Insert s _ hnd), ?_⟩
      intro n
      rw [h3 n, mem_Insert]
      simp only [List.mem_cons, exists_eq_or_imp, hb, Option.some.injEq, exists_eq_left']
      constructor
      · rintro ((h | h) | h)
        · exact Or.inl h
        · exact Or.inr (Or.inl h.symm)
        · exact Or.inr (Or.inr h)
      · rintro (h | h | h)
        · exact Or.inl (Or.inl h)
        · exact Or.inl (Or.inr h.symm)
        · exact Or.inr h

theorem List_sorted (s : StringSet) (h : s.keys.Nodup) :
    s.List.Pairwise (fun a b => a < b) ∧ s.List.Nodup ∧ ∀ n, n ∈ s.List ↔ n ∈ s.keys := by
  have hperm : s.List.Perm s.keys := List.perm_insertionSort _ _
  have hnd : s.List.Nodup := hperm.nodup_iff.2 h
  have hsorted : List.Sorted (fun a b : String => a ≤ b) s.List :=
    List.sorted_insertionSort _ _
  exact ⟨hsorted.lt_of_le hnd, hnd, fun n => hperm.mem_iff⟩

/-- What `BuildServiceRefIndexes` returns when no backend has a nil `Service`. -/
theorem BuildServiceRefIndexes_spec (mci : MultiClusterIngress)
    (hdef : ∀ b, mci.Spec.DefaultBackend = some b → b.Service ≠ none)
    (hpaths : ∀ rule ∈ mci.Spec.Rules, ∀ http, rule.HTTP = some http →
      ∀ path ∈ http.Paths, path.Backend.Service ≠ none) :
    ∃ names, BuildServiceRefIndexes mci = some names ∧
      names.Pairwise (fun a b => a < b) ∧ names.Nodup ∧
      ∀ n, n ∈ names ↔
        ∃ b ∈ collectBackends mci, ∃ svc, b.Service = some svc ∧ svc.Name = n := by
  have hall : ∀ b ∈ collectBackends mci, b.Service ≠ none := by
    intro b hb
    rcases (mem_collectBackends mci b).1 hb with h | ⟨rule, hr, http, hh, path, hp, rfl⟩
    · exact hdef b h
    · exact hpaths rule hr http hh path hp
  obtain ⟨s', h1, h2, h3⟩ := insertServiceNames_some (collectBackends mci) sets.NewString hall
  obtain ⟨g1, g2, g3⟩ := List_sorted s' (h2 (by simp [sets.NewString]))
  refine ⟨s'.List, by simp only [BuildServiceRefIndexes, h1], g1, g2, ?_⟩
  intro n
  rw [g3, h3]
  simp [sets.NewString]

/-! ## Claims on the index builder -/

theorem mciWebApi_default (b : IngressBackend)
    (h : mciWebApi.Spec.DefaultBackend = some b) : b.Service ≠ none := by
  simp only [mciWebApi, Option.some.injEq] at h
  subst h
  simp

theorem mciWebApi_paths : ∀ rule ∈ mciWebApi.Spec.Rules, ∀ http, rule.HTTP = some http →
    ∀ path ∈ http.Paths, path.Backend.Service ≠ none := by
  intro rule hr http hh path hp
  simp only [mciWebApi, List.mem_cons, List.mem_singleton, List.not_mem_nil, or_false] at hr
  rcases hr with rfl | rfl
  · simp at hh
  · simp only [Option.some.injEq] at hh
    subst hh
    simp only [List.mem_cons, List.mem_singleton, List.not_mem_nil, or_false] at hp
    rcases hp with rfl | rfl | rfl <;> simp

/-- C9: for a MultiClusterIngress none of whose backends has a nil `Service`,
`BuildServiceRefIndexes` returns a list, and a string is in it exactly when it is the
service name of the default backend (when there is one) or of the backend of some path of
some rule whose `HTTP` is not nil. -/
theorem C9_index_membership (mci : MultiClusterIngress)
    (hdef : ∀ b, mci.Spec.DefaultBackend = some b → b.Service ≠ none)
    (hpaths : ∀ rule ∈ mci.Spec.Rules, ∀ http, rule.HTTP = some http →
      ∀ path ∈ http.Paths, path.Backend.Service ≠ none) :
    ∃ names, BuildServiceRefIndexes mci = some names ∧
      ∀ n, n ∈ names ↔
        ((∃ b svc, mci.Spec.DefaultBackend = some b ∧ b.Service = some svc ∧ svc.Name = n) ∨
          ∃ rule ∈ mci.Spec.Rules, ∃ http, rule.HTTP = some http ∧
            ∃ path ∈ http.Paths, ∃ svc, path.Backend.Service = some svc ∧ svc.Name = n) := by
  obtain ⟨names, h1, -, -, h4⟩ := BuildServiceRefIndexes_spec mci hdef hpaths
  refine ⟨names, h1, fun n => ?_⟩
  rw [h4]
  constructor
  · rintro ⟨b, hb, svc, hs, hn⟩
    rcases (mem_collectBackends mci b).1 hb with h | ⟨rule, hr, http, hh, path, hp, rfl⟩
    · exact Or.inl ⟨b, svc, h, hs, hn⟩
    · exact Or.inr ⟨rule, hr, http, hh, path, hp, svc, hs, hn⟩
  · rintro (⟨b, svc, h, hs, hn⟩ | ⟨rule, hr, http, hh, path, hp, svc, hs, hn⟩)
    · exact ⟨b, (mem_collectBackends mci b).2 (Or.inl h), svc, hs, hn⟩
    · exact ⟨path.Backend,
        (mem_collectBackends mci _).2 (Or.inr ⟨rule, hr, http, hh, path, hp, rfl⟩),
        svc, hs, hn⟩

/-- C9 on `mciWebApi`. -/
theorem C9_index_membership_witness :
    ∃ names, BuildServiceRefIndexes mciWebApi = some names ∧
      ∀ n, n ∈ names ↔
        ((∃ b svc, mciWebApi.Spec.DefaultBackend = some b ∧ b.Service = some svc ∧
            svc.Name = n) ∨
          ∃ rule ∈ mciWebApi.Spec.Rules, ∃ http, rule.HTTP = some http ∧
            ∃ path ∈ http.Paths, ∃ svc, path.Backend.Service = some svc ∧ svc.Name = n) :=
  C9_index_membership mciWebApi mciWebApi_default mciWebApi_paths

/-- C10: for a MultiClusterIngress none of whose backends has a nil `Service`, the list
`BuildServiceRefIndexes` returns is strictly increasing in the order of strings, and so
holds no name twice, whatever the order and the number of times the names occur in the
default backend, the rules and the paths. -/
theorem C10_index_sorted (mci : MultiClusterIngress)
    (hdef : ∀ b, mci.Spec.DefaultBackend = some b → b.Service ≠ none)
    (hpaths : ∀ rule ∈ mci.Spec.Rules, ∀ http, rule.HTTP = some http →
      ∀ path ∈ http.Paths, path.Backend.Service ≠ none) :
    ∃ names, BuildServiceRefIndexes mci = some names ∧
      names.Pairwise (fun a b => a < b) ∧ names.Nodup := by
  obtain ⟨names, h1, h2, h3, -⟩ := BuildServiceRefIndexes_spec mci hdef hpaths
  exact ⟨names, h1, h2, h3⟩

/-- C10 on `mciWebApi`, where the index is `api`, `web`. -/
theorem C10_index_sorted_witness :
    BuildServiceRefIndexes mciWebApi = some ["api", "web"] ∧
      ∃ names, BuildServiceRefIndexes mciWebApi = some names ∧
        names.Pairwise (fun a b => a < b) ∧ names.Nodup :=
  ⟨by
      simp [BuildServiceRefIndexes, collectBackends, insertServiceNames, mciWebApi,
        sets.NewString, StringSet.Insert, StringSet.List]
      decide,
    C10_index_sorted mciWebApi mciWebApi_default mciWebApi_paths⟩

/-- C11, evaluated on the code: on a MultiClusterIngress whose default backend has a nil
`Service`, and on one with a path whose backend has a nil `Service`,
`BuildServiceRefIndexes` dereferences the nil pointer at `backend.Service.Name` and returns
nothing, although both objects are well-typed and the one path to `web` would give the
index `web`. -/
theorem C11_nil_service_dereferenced :
    BuildServiceRefIndexes mciResourceBackend = none ∧
      BuildServiceRefIndexes mciResourcePath = none :=
  ⟨rfl, rfl⟩

theorem List_singleton (n : String) : StringSet.List { keys := [n] } = [n] := by
  simp [StringSet.List]

/-- C16: for every name `n`, `BuildServiceRefIndexes` returns the one-element list `[n]` on
a MultiClusterIngress that names `n` as its default backend and in two paths and names
nothing else, whether the two paths are in one rule or in two rules. -/
theorem C16_index_dedup (n : String) :
    BuildServiceRefIndexes
        { Spec :=
            { DefaultBackend := some { Service := some { Name := n } }
              Rules :=
                [{ HTTP := some { Paths :=
                    [{ Backend := { Service := some { Name := n } } },
                     { Backend := { Service := some { Name := n } } }] } }] } }
        = some [n] ∧
      BuildServiceRefIndexes
        { Spec :=
            { DefaultBackend := some { Service := some { Name := n } }
              Rules :=
                [{ HTTP := some { Paths := [{ Backend := { Service := some { Name := n } } }] } },
                 { HTTP := some { Paths := [{ Backend := { Service := some { Name := n } } }] } }] } }
        = some [n] := by
  constructor <;>
    simp [BuildServiceRefIndexes, collectBackends, insertServiceNames, sets.NewString,
      StringSet.Insert, List_singleton]

/-- C17: on a MultiClusterIngress with no default backend in which every rule has a nil
`HTTP` or an empty list of paths (the list of rules may be empty),
`BuildServiceRefIndexes` returns the empty list; it does not fail. -/
theorem C17_index_empty (mci : MultiClusterIngress)
    (hdef : mci.Spec.DefaultBackend = none)
    (hrules : ∀ rule ∈ mci.Spec.Rules, ∀ http, rule.HTTP = some http → http.Paths = []) :
    BuildServiceRefIndexes mci = some [] := by
  have hnil : collectBackends mci = [] := by
    rw [List.eq_nil_iff_forall_not_mem]
    intro b hb
    rcases (mem_collectBackends mci b).1 hb with h | ⟨rule, hr, http, hh, path, hp, -⟩
    · rw [hdef] at h; cases h
    · rw [hrules rule hr http hh] at hp; cases hp
  simp [BuildServiceRefIndexes, hnil, insertServiceNames, sets.NewString, StringSet.List]

/-- C17 on `mciNoBackends` and on the MultiClusterIngress without any rule. -/
theorem C17_index_empty_witness :
    BuildServiceRefIndexes mciNoBackends = some [] ∧
      BuildServiceRefIndexes {} = some [] :=
  ⟨C17_index_empty mciNoBackends rfl (by
      intro rule hr http hh
      simp only [mciNoBackends, List.mem_cons, List.mem_singleton, List.not_mem_nil,
        or_false] at hr
      rcases hr with rfl | rfl | rfl
      · cases hh
      · cases hh; rfl
      · cases hh),
    C17_index_empty {} rfl (by intro rule hr; cases hr)⟩

end indexes
